import Mathlib

/-!
# Quiz engine and selection wheel of `app.component`

A shallow embedding of the quiz state machine (`selectAnswer`, `resetQuiz`,
`closeQuiz`, `getOptionClass`) and of the selection wheel (`initializeWheel`,
`spinWheel`, `areAllSegmentsInactive`) of `src/app.component`.

Conventions of the embedding:

* Angular signals become fields of a state record; a method becomes a function
  from the state before the call to the state after it.
* `setTimeout` callbacks become entries of a `timers` list carried by the state:
  a call appends its callback, and firing a timer removes it from the list and
  runs its body on the state current at that moment.  Nothing in the source ever
  cancels a timer, so the list is only ever shortened by firing.
* JavaScript numbers are read as exact rationals, `Math.random()` as an
  arbitrary rational of `[0, 1)`.
-/

namespace AppComponent

/-! ## Quiz: data -/

/-- One entry of the quiz bank (`interface QuizQuestion`). -/
structure QuizQuestion where
  question : String
  options : List String
  answer : String
  deriving DecidableEq, Repr

/-- The three `setTimeout` callbacks that touch the quiz signals. -/
inductive QuizEffect where
  /-- The 1500 ms callback of a correct answer (`selectAnswer`, lines 427-435). -/
  | advance
  /-- The 1000 ms callback of an incorrect answer (`selectAnswer`, lines 437-439). -/
  | clearSelection
  /-- The 300 ms callback of `closeQuiz`: `() => this.resetQuiz()`. -/
  | reset
  deriving DecidableEq, Repr

/-- The quiz signals of the component together with the pending timers, oldest first. -/
structure QuizState where
  quizModalVisible : Bool
  currentQuestionIndex : Nat
  selectedAnswer : Option String
  quizFinished : Bool
  score : Nat
  showConfetti : Bool
  timers : List QuizEffect
  deriving DecidableEq, Repr

/-- The signals as the field initialisers leave them (lines 50-55), no timer pending. -/
def initialQuiz : QuizState :=
  { quizModalVisible := false
    currentQuestionIndex := 0
    selectedAnswer := none
    quizFinished := false
    score := 0
    showConfetti := false
    timers := [] }

/-- The bank of the component (`readonly quizQuestions`, lines 352-403). -/
def quizQuestions : List QuizQuestion :=
  [ { question := "في البيت الأول \"عَدِمتُكَ... أَتَجعَلُ مَن هَويتَ عَلَيكَ رَبّا\"، ما هو الغرض من الاستفهام؟"
      options := ["التقرير والتأكيد", "النفي والتكذيب", "الإنكار والتعجب", "التمني والرجاء"]
      answer := "الإنكار والتعجب" },
    { question := "ما معنى كلمة \"صبابة\" في البيت \"تَحِنُّ صَبابَةً في كُلِّ يَومٍ\"؟"
      options := ["حزن شديد", "شوق ورقة", "قوة وعزيمة", "تعب وإرهاق"]
      answer := "شوق ورقة" },
    { question := "ما الأسلوب البلاغي الأبرز في الشطر \"لَقَد عَذَّبتَني رَغباً وَرَهبا\"؟"
      options := ["مقابلة", "طباق", "جناس", "سجع"]
      answer := "طباق" },
    { question := "بمَ توعّد الشاعر قلبه في البيت \"بَكَيتَ مِنَ الهَوى وَهَواكَ طِفلٌ ... فَوَيلَكَ ثُمَّ وَيلَكَ حينَ شَبّا\"؟"
      options := ["بأن الحب سيصبح أسهل", "بأن حبيبته ستعود إليه", "بأن عذاب الحب سيزداد ويشتد", "أنه سينسى هذا الحب"]
      answer := "بأن عذاب الحب سيزداد ويشتد" },
    { question := "الكناية في قول الشاعر \"فَخُذ بِيَدَيكَ تُربا\" تدل على:"
      options := ["الفوز العظيم", "الحزن الشديد", "الندم والتوبة", "الخيبة والفشل المطلق"]
      answer := "الخيبة والفشل المطلق" },
    { question := "ما الحكمة التي يدعو إليها الشاعر في \"فَكُن خِبّاً إِذا لاقَيتَ خِبّا\"؟"
      options := ["التسامح مع الأعداء", "معاملة المخادع بنفس أسلوبه", "تجنب الناس جميعاً", "الصدق في كل الأحوال"]
      answer := "معاملة المخادع بنفس أسلوبه" },
    { question := "ما الصورة الجمالية في قول الشاعر عن وعود حبيبته \"فَإِنَّ عِداتِها أَنزَلنَ جَدبا\"؟"
      options := ["شبه الوعود بالمطر الغزير", "شبه خيبة الأمل بالقحط والجفاف", "شبه الوعود بالزرع الأخضر", "شبه خيبة الأمل بالبحر الهائج"]
      answer := "شبه خيبة الأمل بالقحط والجفاف" },
    { question := "ما الغرض من الاستفهام في \"أَلا يا قَلبُ هَل لَكَ في التَعَZّي\"؟"
      options := ["النفي والإنكار", "التقرير والتأكيد", "الحث والتمني", "السخرية والتهكم"]
      answer := "الحث والتمني" },
    { question := "من المقصود بكلمة \"قَيِّم\" في قول الحبيبة \"أُراقِبُ قَيِّماً وَأَخافُ كَلبا\"؟"
      options := ["صديق الشاعر", "الولي أو المسؤول عنها", "حارس القصر", "كلب الحراسة"]
      answer := "الولي أو المسؤول عنها" },
    { question := "ما الحقيقة التي توصل إليها الشاعر عن طبيعة القلب في نهاية القصيدة؟"
      options := ["أن القلب يميل لمن يبغضه", "أنه يمكن إجبار القلب على الحب", "أن القلب بطبيعته يميل لمن يحبه", "أن القلب متقلب ولا أمان له"]
      answer := "أن القلب بطبيعته يميل لمن يحبه" } ]

/-! ## Quiz: operations -/

/-- JavaScript truthiness of a `string | null` value, as tested by
`if (this.selectedAnswer()) return;`: `null` and the empty string are falsy. -/
def truthy : Option String → Bool
  | none => false
  | some v => v != ""

/-- The method `resetQuiz` (lines 443-448).  Pending timers are not touched. -/
def resetQuiz (s : QuizState) : QuizState :=
  { s with currentQuestionIndex := 0, selectedAnswer := none, quizFinished := false, score := 0 }

/-- The method `closeQuiz` (lines 413-417): hides the modal and the confetti and
schedules `resetQuiz` 300 ms later. -/
def closeQuiz (s : QuizState) : QuizState :=
  { s with quizModalVisible := false, showConfetti := false, timers := s.timers ++ [QuizEffect.reset] }

/-- The method `selectAnswer` (lines 419-441) over the bank `bank`.

`Except.error t` stands for the `TypeError` raised by `currentQuestion.answer`
when `bank[currentQuestionIndex]` is `undefined`; `t` is the state the throw
leaves behind (the selection was already written on line 422). -/
def selectAnswer (bank : List QuizQuestion) (s : QuizState) (option : String) :
    Except QuizState QuizState :=
  if truthy s.selectedAnswer then Except.ok s
  else
    let s1 := { s with selectedAnswer := some option }
    match bank[s1.currentQuestionIndex]? with
    | none => Except.error s1
    | some currentQuestion =>
      if option = currentQuestion.answer then
        Except.ok { s1 with score := s1.score + 1, timers := s1.timers ++ [QuizEffect.advance] }
      else
        Except.ok { s1 with timers := s1.timers ++ [QuizEffect.clearSelection] }

/-- The body of a timer callback, run on the state current when it fires.
The comparison of `advance` is the source's
`currentQuestionIndex() < quizQuestions.length - 1`, over the integers. -/
def runEffect (bank : List QuizQuestion) (s : QuizState) : QuizEffect → QuizState
  | QuizEffect.advance =>
    if (s.currentQuestionIndex : Int) < (bank.length : Int) - 1 then
      { s with currentQuestionIndex := s.currentQuestionIndex + 1, selectedAnswer := none }
    else
      { s with quizFinished := true, showConfetti := true }
  | QuizEffect.clearSelection => { s with selectedAnswer := none }
  | QuizEffect.reset => resetQuiz s

/-- Fires the pending timer at position `i` (0 is the oldest): it leaves the list
and its body runs.  No timer at that position: nothing happens. -/
def fireTimer (bank : List QuizQuestion) (s : QuizState) (i : Nat) : QuizState :=
  match s.timers[i]? with
  | none => s
  | some e => runEffect bank { s with timers := s.timers.eraseIdx i } e

/-- What can happen to the quiz: a call of `selectAnswer`, the firing of a
pending timer, a call of `resetQuiz`. -/
inductive QuizEvent where
  | select (option : String)
  | fire (i : Nat)
  | reset
  deriving DecidableEq, Repr

/-- The state a call leaves behind, whether it returned or threw. -/
def settle : Except QuizState QuizState → QuizState
  | Except.ok t => t
  | Except.error t => t

/-- One event on the quiz. -/
def quizStep (bank : List QuizQuestion) (s : QuizState) : QuizEvent → QuizState
  | QuizEvent.select o => settle (selectAnswer bank s o)
  | QuizEvent.fire i => fireTimer bank s i
  | QuizEvent.reset => resetQuiz s

/-- A sequence of events, left to right. -/
def quizRun (bank : List QuizQuestion) (s : QuizState) : List QuizEvent → QuizState
  | [] => s
  | e :: es => quizRun bank (quizStep bank s e) es

/-- The events on one question: each wrong option of `wrong` is selected and its
timer fires, then the question's answer is selected (its timer still pending). -/
def answerRun (q : QuizQuestion) (wrong : List String) : List QuizEvent :=
  (wrong.flatMap fun w => [QuizEvent.select w, QuizEvent.fire 0]) ++ [QuizEvent.select q.answer]

/-- The events of a whole sitting: question after question, `answerRun` and then
the firing of the correct answer's timer. -/
def sessionRun : List QuizQuestion → List (List String) → List QuizEvent
  | q :: qs, w :: ws => answerRun q w ++ QuizEvent.fire 0 :: sessionRun qs ws
  | _, _ => []

/-- The quiz at the start of question `k` of an in-order sitting: `k` questions
answered, nothing selected, nothing pending. -/
def atQuestion (k : Nat) : QuizState :=
  { initialQuiz with currentQuestionIndex := k, score := k }

/-- The quiz right after the correct selection on question `k`: the answer is
selected, the score counts it, its timer is pending. -/
def justAnswered (k : Nat) (q : QuizQuestion) : QuizState :=
  { atQuestion k with
    selectedAnswer := some q.answer, score := k + 1, timers := [QuizEffect.advance] }

/-- `P` holds in the state before each event of `evs`, run from `s`. -/
def HoldsBefore (bank : List QuizQuestion) (P : QuizState → Prop) (s : QuizState)
    (evs : List QuizEvent) : Prop :=
  ∀ m, m < evs.length → P (quizRun bank s (evs.take m))

/-! ## Quiz: option styling -/

/-- The class string of an option while nothing is selected (line 494). -/
def neutralClass : String := "bg-[#2c2c2c]/50 border-2 border-[#c9a969]/40"

/-- The class string of an option other than the selected one (line 499). -/
def dimmedClass : String := "bg-[#2c2c2c]/30 border-2 border-[#c9a969]/20 opacity-60"

/-- The class string of the selected option when it is the answer (line 506). -/
def correctClass : String :=
  "bg-green-600/90 text-white font-bold border-green-400 scale-105 shadow-lg shadow-green-500/30 animate-tada"

/-- The class string of the selected option when it is not the answer (line 508). -/
def incorrectClass : String :=
  "bg-red-600/90 text-white font-bold border-red-400 animate-shake-horizontal"

/-- The method `getOptionClass` (lines 491-510) over the bank `bank`.  It reads the
signals and writes none; `none` stands for the `TypeError` of
`currentQuestion.answer` when `bank[currentQuestionIndex]` is `undefined`. -/
def getOptionClass (bank : List QuizQuestion) (s : QuizState) (option : String) :
    Option String :=
  match s.selectedAnswer with
  | none => some neutralClass
  | some selected =>
    let isSelected : Bool := option = selected
    if !isSelected then some dimmedClass
    else
      match bank[s.currentQuestionIndex]? with
      | none => none
      | some currentQuestion =>
        let isCorrect : Bool := option = currentQuestion.answer
        if isCorrect then some correctClass else some incorrectClass

/-! ## Wheel: data -/

/-- A value `Math.random()` can return, read exactly: a rational of `[0, 1)`. -/
abbrev RandomValue : Type := { u : ℚ // 0 ≤ u ∧ u < 1 }

/-- The three `Math.random()` results one passing `spinWheel` call consumes, in
the order of the calls: the pick (line 575), the turns (line 583), the jitter
(line 585). -/
structure SpinRandom where
  pick : RandomValue
  turns : RandomValue
  jitter : RandomValue

/-- The fields of `interface WheelSegment` that the component's logic reads or
compares.  `path`, `textX`, `textY` and `textTransform` are strings and floats
rendered from `Math.cos`/`Math.sin` of the angles of `segmentAngles`; no method
reads them back, and they are left out. -/
structure WheelSegment where
  color : String
  number : Nat
  active : Bool
  deriving DecidableEq, Repr

/-- The wheel signals of the component, and in `timers` the `selectedNumber`
captured by each pending 6000 ms callback of `spinWheel`, oldest first. -/
structure WheelState where
  wheelSegments : List WheelSegment
  isSpinning : Bool
  selectedNumberFromWheel : Option Nat
  wheelRotation : ℚ
  timers : List Nat

/-- The wheel signals as the field initialisers leave them (lines 66-69). -/
def initialWheel : WheelState :=
  { wheelSegments := []
    isSpinning := false
    selectedNumberFromWheel := none
    wheelRotation := 0
    timers := [] }

/-! ## Wheel: `initializeWheel` -/

/-- The palette `colors` of line 519. -/
def colors : List String := ["#c9a969", "#fce5ad", "#E6B325", "#f0e6d2"]

/-- The local `angleStep` of line 516: `360 / numSegments`. -/
def angleStep (numSegments : Nat) : ℚ := 360 / numSegments

/-- The angles the loop body computes for segment `i` (lines 522-534). -/
structure SegmentAngles where
  angleStart : ℚ
  angleEnd : ℚ
  largeArcFlag : Nat
  textAngle : ℚ
  deriving DecidableEq

/-- Lines 522, 523, 531 and 534 of the loop body, for a wheel of `numSegments`. -/
def segmentAngles (numSegments i : Nat) : SegmentAngles :=
  let angleStart : ℚ := i * angleStep numSegments
  let angleEnd : ℚ := (i + 1) * angleStep numSegments
  { angleStart := angleStart
    angleEnd := angleEnd
    largeArcFlag := if angleStep numSegments > 180 then 1 else 0
    textAngle := angleStart + angleStep numSegments / 2 }

/-- The object pushed by iteration `i` of the loop (lines 541-549). -/
def makeSegment (i : Nat) : WheelSegment :=
  { color := colors.get ⟨i % colors.length, Nat.mod_lt i (by decide)⟩
    number := i + 1
    active := true }

/-- The array the loop of `initializeWheel` builds for `numSegments` iterations. -/
def buildSegments (numSegments : Nat) : List WheelSegment :=
  (List.range numSegments).map makeSegment

/-- The method `initializeWheel` (lines 513-554), `numSegments = 34`.  It writes
`wheelSegments`, `wheelRotation` and `selectedNumberFromWheel`, and leaves
`isSpinning` and the pending timers alone. -/
def initializeWheel (s : WheelState) : WheelState :=
  { s with
    wheelSegments := buildSegments 34
    wheelRotation := 0
    selectedNumberFromWheel := none }

/-- The wheel after `ngOnInit` (lines 78-80). -/
def freshWheel : WheelState := initializeWheel initialWheel

/-- The computed signal `areAllSegmentsInactive` (line 73). -/
def areAllSegmentsInactive (s : WheelState) : Bool :=
  s.wheelSegments.all fun seg => !seg.active

/-! ## Wheel: `spinWheel` -/

/-- JavaScript `a % b` on exact numbers: `a - b * trunc (a / b)`, the sign of the
result following the dividend. -/
def jsRem (a b : ℚ) : ℚ :=
  a - b * (if 0 ≤ a / b then ⌊a / b⌋ else ⌈a / b⌉)

/-- `Math.floor(Math.random() * len)` for `0 < len`, with the bound that makes
`activeSegments[randomIndex]` defined. -/
def randomIndex (u : RandomValue) (len : Nat) (h : 0 < len) : Fin len :=
  ⟨⌊u.val * len⌋.toNat, by
    have hl : (0 : ℚ) < len := by exact_mod_cast h
    have h1 : u.val * len < len := by nlinarith [u.property.2]
    have h0 : 0 ≤ u.val * len := mul_nonneg u.property.1 hl.le
    have h2 : ⌊u.val * len⌋ < (len : Int) := Int.floor_lt.mpr (by exact_mod_cast h1)
    have h3 : 0 ≤ ⌊u.val * len⌋ := Int.floor_nonneg.mpr h0
    omega⟩

/-- `Array.prototype.findIndex`: the first position satisfying `p`, or `-1`. -/
def findIndex (l : List WheelSegment) (p : WheelSegment → Bool) : Int :=
  if l.findIdx p < l.length then (l.findIdx p : Int) else -1

/-- Lines 567-579 of `spinWheel`: the two guards and the draw.  `none` when a
guard returns; otherwise `selectedNumber` and `segmentIndex`. -/
def drawSegment (s : WheelState) (pick : RandomValue) : Option (Nat × Int) :=
  if s.isSpinning then none
  else
    let activeSegments := s.wheelSegments.filter fun seg => seg.active
    if h : activeSegments.length = 0 then none
    else
      let selectedSegment :=
        activeSegments.get (randomIndex pick activeSegments.length (Nat.pos_of_ne_zero h))
      let selectedNumber := selectedSegment.number
      let segmentIndex := findIndex s.wheelSegments fun seg => seg.number == selectedNumber
      some (selectedNumber, segmentIndex)

/-- Lines 580-591 of `spinWheel`: the value written to `wheelRotation`.  (The
local `currentRotation` of lines 587-588 is computed and never read.) -/
def finalRotation (wheelRotation : ℚ) (segmentIndex : Int) (turns jitter : RandomValue) : ℚ :=
  let segmentAngle : ℚ := 360 / 34
  let fullSpins : ℚ := ((⌊turns.val * 4⌋ + 5 : Int) : ℚ) * 360
  let targetCorrection : ℚ := segmentIndex * segmentAngle + segmentAngle / 2
  let randomOffset : ℚ := (jitter.val - 1 / 2) * (segmentAngle * (8 / 10))
  let finalAngle : ℚ := fullSpins - targetCorrection + randomOffset
  wheelRotation - jsRem wheelRotation 360 + finalAngle

/-- The method `spinWheel` (lines 566-600) with the random results `r`. -/
def spinWheel (s : WheelState) (r : SpinRandom) : WheelState :=
  match drawSegment s r.pick with
  | none => s
  | some (selectedNumber, segmentIndex) =>
    { s with
      isSpinning := true
      selectedNumberFromWheel := none
      wheelRotation := finalRotation s.wheelRotation segmentIndex r.turns r.jitter
      timers := s.timers ++ [selectedNumber] }

/-- The body of the 6000 ms callback of `spinWheel` (lines 594-598) that captured
`selectedNumber`, run on the state current when it fires. -/
def completeSpin (s : WheelState) (selectedNumber : Nat) : WheelState :=
  { s with
    isSpinning := false
    selectedNumberFromWheel := some selectedNumber
    wheelSegments := s.wheelSegments.map fun seg =>
      if seg.number = selectedNumber then { seg with active := false } else seg }

/-- Fires the oldest pending callback (all have the same delay, so they fire in
the order of their scheduling).  None pending: nothing happens. -/
def fireSpinTimer (s : WheelState) : WheelState :=
  match s.timers with
  | [] => s
  | selectedNumber :: rest => completeSpin { s with timers := rest } selectedNumber

/-- What can happen to the wheel. -/
inductive WheelEvent where
  | spin (r : SpinRandom)
  | fire
  | init

/-- One event on the wheel. -/
def wheelStep (s : WheelState) : WheelEvent → WheelState
  | WheelEvent.spin r => spinWheel s r
  | WheelEvent.fire => fireSpinTimer s
  | WheelEvent.init => initializeWheel s

/-- A sequence of events on the wheel, left to right. -/
def wheelRun (s : WheelState) : List WheelEvent → WheelState
  | [] => s
  | e :: es => wheelRun (wheelStep s e) es

/-- A spin run to completion: the call, then its callback. -/
def spinToCompletion (s : WheelState) (r : SpinRandom) : WheelState :=
  fireSpinTimer (spinWheel s r)

/-- The states after each of a sequence of spins run to completion one after
the other. -/
def spinTrace (s : WheelState) : List SpinRandom → List WheelState
  | [] => []
  | r :: rs => spinToCompletion s r :: spinTrace (spinToCompletion s r) rs

/-- The position of the fixed top pointer on the wheel rotated by `rotation`
degrees, as an angle of `[0, 360)` measured clockwise from the start of segment
0: `(-rotation) mod 360`. -/
def pointerAngle (rotation : ℚ) : ℚ :=
  -rotation - 360 * ⌊-rotation / 360⌋

/-! ## Quiz: reachability without stale timers -/

/-- The events of the restricted interleaving: any non-empty option may be
selected, any pending timer may fire, and `resetQuiz` is called only while no
timer is pending. -/
def Admissible (s : QuizState) : QuizEvent → Prop
  | QuizEvent.select o => o ≠ ""
  | QuizEvent.fire _ => True
  | QuizEvent.reset => s.timers = []

/-- Every event of the run is admissible in the state it meets. -/
def AdmissibleRun (bank : List QuizQuestion) (s : QuizState) : List QuizEvent → Prop
  | [] => True
  | e :: es => Admissible s e ∧ AdmissibleRun bank (quizStep bank s e) es

/-- The shape of the quiz along an admissible run: at most one timer is pending,
a pending timer blocks further selections, and the score counts each question at
most once. -/
def QuizInv (bank : List QuizQuestion) (s : QuizState) : Prop :=
  s.currentQuestionIndex ≤ bank.length ∧ s.score ≤ bank.length ∧
  s.score ≤ s.currentQuestionIndex + 1 ∧
  ((s.timers = [] ∧ (truthy s.selectedAnswer = false → s.score ≤ s.currentQuestionIndex)) ∨
   (s.timers = [QuizEffect.clearSelection] ∧ truthy s.selectedAnswer = true ∧
      s.score ≤ s.currentQuestionIndex) ∨
   (s.timers = [QuizEffect.advance] ∧ truthy s.selectedAnswer = true ∧
      s.currentQuestionIndex < bank.length))

/-- A run on the component's bank in which a `resetQuiz` falls between a wrong
selection and its timer: the stale timer then clears the correct selection of
the new session, the first question is scored twice, and every later question
once. -/
def doubleCountRun : List QuizEvent :=
  [QuizEvent.select "التقرير والتأكيد", QuizEvent.reset, QuizEvent.select "الإنكار والتعجب",
    QuizEvent.fire 0, QuizEvent.select "الإنكار والتعجب"] ++
  (quizQuestions.drop 1).flatMap fun q => [QuizEvent.fire 0, QuizEvent.select q.answer]

/-- The four quiz signals of `t` are those of `s`. -/
def SameQuizSignals (s t : QuizState) : Prop :=
  t.currentQuestionIndex = s.currentQuestionIndex ∧ t.selectedAnswer = s.selectedAnswer ∧
    t.score = s.score ∧ t.quizFinished = s.quizFinished

instance (s t : QuizState) : Decidable (SameQuizSignals s t) := by
  unfold SameQuizSignals
  infer_instance

/-- The component's quiz after the wrong option `"التقرير والتأكيد"` of its first
question was selected on the initial quiz. -/
def wrongSelected : QuizState :=
  settle (selectAnswer quizQuestions initialQuiz "التقرير والتأكيد")

/-- The random result 0. -/
def zeroRandom : RandomValue := ⟨0, by norm_num⟩

/-- Three random results 0. -/
def zeroSpin : SpinRandom := { pick := zeroRandom, turns := zeroRandom, jitter := zeroRandom }

/-- The wheel after a sequence of spins run to completion one after the other. -/
def spinAll (s : WheelState) : List SpinRandom → WheelState
  | [] => s
  | r :: rs => spinAll (spinToCompletion s r) rs

/-- The numbers `selectedNumberFromWheel` shows after each of a sequence of spins
run to completion, in order. -/
def reportedNumbers (s : WheelState) (rs : List SpinRandom) : List Nat :=
  (spinTrace s rs).filterMap fun t => t.selectedNumberFromWheel

/-- The shape of an idle wheel on which the numbers `drawn` have been drawn since
the last `initializeWheel`: no spin in flight, 34 segments with distinct numbers,
and a segment is inactive exactly when its number was drawn. -/
def WheelInv (s : WheelState) (drawn : List Nat) : Prop :=
  s.isSpinning = false ∧ s.timers = [] ∧
  s.wheelSegments.length = 34 ∧ (s.wheelSegments.map fun seg => seg.number).Nodup ∧
  drawn.Nodup ∧ (∀ n ∈ drawn, n ∈ s.wheelSegments.map fun seg => seg.number) ∧
  (∀ seg ∈ s.wheelSegments, seg.active = false ↔ seg.number ∈ drawn)

/-- The shape of the wheel along any run from the fresh wheel: the segments carry
the numbers 1, ..., 34 in order; either no callback is pending and no spin is in
flight, or exactly one callback is pending, for a number of the wheel, and a spin
is in flight; and a selected number is the number of inactive segments only. -/
def SpinInv (s : WheelState) : Prop :=
  (s.wheelSegments.map fun seg => seg.number) = List.range' 1 34 ∧
  ((s.timers = [] ∧ s.isSpinning = false) ∨
    ∃ num, s.timers = [num] ∧ s.isSpinning = true ∧ num ∈ List.range' 1 34) ∧
  (∀ n, s.selectedNumberFromWheel = some n →
    n ∈ List.range' 1 34 ∧ ∀ seg ∈ s.wheelSegments, seg.number = n → seg.active = false)

/-- Random results away from 0: pick 1/2, turns 1/2, jitter 3/4. -/
def sampleSpin : SpinRandom :=
  { pick := ⟨1 / 2, by norm_num⟩, turns := ⟨1 / 2, by norm_num⟩, jitter := ⟨3 / 4, by norm_num⟩ }

/-- The wheel after one spin run to completion on the fresh wheel with random
results 0: segment number 1 (index 0) is inactive and the rotation is not 0. -/
def onceSpunWheel : WheelState := spinToCompletion freshWheel zeroSpin

end AppComponent

namespace AppComponent

/-! ## Quiz: running events -/

theorem quizRun_append (bank : List QuizQuestion) (s : QuizState) (a b : List QuizEvent) :
    quizRun bank s (a ++ b) = quizRun bank (quizRun bank s a) b := by
  induction a generalizing s with
  | nil => rfl
  | cons e es ih => simp [quizRun, ih]

theorem holdsBefore_nil (bank : List QuizQuestion) (P : QuizState → Prop) (s : QuizState) :
    HoldsBefore bank P s [] := by
  intro m hm
  simp at hm

theorem holdsBefore_cons (bank : List QuizQuestion) (P : QuizState → Prop) (s : QuizState)
    (e : QuizEvent) (es : List QuizEvent) (h0 : P s)
    (h : HoldsBefore bank P (quizStep bank s e) es) : HoldsBefore bank P s (e :: es) := by
  intro m hm
  cases m with
  | zero => simpa [quizRun] using h0
  | succ m =>
    have hm2 : m < es.length := by simpa using hm
    simpa [quizRun] using h m hm2

theorem holdsBefore_append (bank : List QuizQuestion) (P : QuizState → Prop) (s : QuizState)
    (a b : List QuizEvent) (ha : HoldsBefore bank P s a)
    (hb : HoldsBefore bank P (quizRun bank s a) b) : HoldsBefore bank P s (a ++ b) := by
  induction a generalizing s with
  | nil => simpa [quizRun] using hb
  | cons e es ih =>
    have h0 : P s := by simpa [quizRun] using ha 0 (by simp)
    have hes : HoldsBefore bank P (quizStep bank s e) es := by
      intro m hm
      have := ha (m + 1) (by simpa using hm)
      simpa [quizRun] using this
    exact holdsBefore_cons bank P s e (es ++ b) h0 (ih _ hes (by simpa [quizRun] using hb))

/-- A wrong option at the start of a question, and its timer: back to the start. -/
theorem wrong_attempt (bank : List QuizQuestion) (k : Nat) (q : QuizQuestion) (w : String)
    (hq : bank[k]? = some q) (hw : w ≠ q.answer) :
    quizRun bank (atQuestion k) [QuizEvent.select w, QuizEvent.fire 0] = atQuestion k := by
  simp [quizRun, quizStep, selectAnswer, atQuestion, initialQuiz, truthy, settle, fireTimer,
    runEffect, hq, hw]

theorem answerRun_cons (q : QuizQuestion) (o : String) (w : List String) :
    answerRun q (o :: w) = [QuizEvent.select o, QuizEvent.fire 0] ++ answerRun q w := by
  simp [answerRun]

theorem correct_attempt (bank : List QuizQuestion) (k : Nat) (q : QuizQuestion)
    (hq : bank[k]? = some q) :
    quizStep bank (atQuestion k) (QuizEvent.select q.answer) = justAnswered k q := by
  simp [quizStep, selectAnswer, atQuestion, justAnswered, initialQuiz, truthy, settle, hq]

/-- The attempts on question `k`, from its start: they end in `justAnswered`, and
the quiz is unfinished before each of them. -/
theorem answerRun_spec (bank : List QuizQuestion) (k : Nat) (q : QuizQuestion)
    (hq : bank[k]? = some q) (w : List String) (hw : ∀ o ∈ w, o ≠ q.answer) :
    quizRun bank (atQuestion k) (answerRun q w) = justAnswered k q ∧
      HoldsBefore bank (fun t => t.quizFinished = false) (atQuestion k) (answerRun q w) := by
  induction w with
  | nil =>
    constructor
    · simp [answerRun, quizRun, correct_attempt bank k q hq]
    · exact holdsBefore_cons bank _ _ _ _ rfl (holdsBefore_nil bank _ _)
  | cons o w ih =>
    have ho : o ≠ q.answer := hw o (by simp)
    have ih2 := ih (fun x hx => hw x (by simp [hx]))
    have hback := wrong_attempt bank k q o hq ho
    rw [answerRun_cons]
    constructor
    · rw [quizRun_append, hback]
      exact ih2.1
    · refine holdsBefore_append bank _ _ _ _ ?_ ?_
      · refine holdsBefore_cons bank _ _ _ _ rfl (holdsBefore_cons bank _ _ _ _ ?_ (holdsBefore_nil bank _ _))
        simp [quizStep, selectAnswer, atQuestion, initialQuiz, truthy, settle, hq, ho]
      · rw [hback]
        exact ih2.2

/-- The timer of a correct answer on a question that is not the last one. -/
theorem advance_inner (bank : List QuizQuestion) (k : Nat) (q : QuizQuestion)
    (hk : k + 1 < bank.length) :
    quizStep bank (justAnswered k q) (QuizEvent.fire 0) = atQuestion (k + 1) := by
  have : (k : Int) < (bank.length : Int) - 1 := by omega
  simp [quizStep, fireTimer, runEffect, justAnswered, atQuestion, initialQuiz, this]

/-- The timer of a correct answer on the last question. -/
theorem advance_last (bank : List QuizQuestion) (k : Nat) (q : QuizQuestion)
    (hk : k + 1 = bank.length) :
    quizStep bank (justAnswered k q) (QuizEvent.fire 0) =
      { justAnswered k q with quizFinished := true, showConfetti := true, timers := [] } := by
  have : ¬ (k : Int) < (bank.length : Int) - 1 := by omega
  simp [quizStep, fireTimer, runEffect, justAnswered, atQuestion, initialQuiz, this]

theorem getElem?_middle (pre : List QuizQuestion) (q : QuizQuestion) (rest : List QuizQuestion) :
    (pre ++ q :: rest)[pre.length]? = some q := by
  rw [List.getElem?_append_right (Nat.le_refl _)]
  simp

theorem sessionRun_cons (q : QuizQuestion) (qs : List QuizQuestion) (w : List String)
    (ws : List (List String)) :
    sessionRun (q :: qs) (w :: ws) = answerRun q w ++ QuizEvent.fire 0 :: sessionRun qs ws := rfl

/-- A run of questions that stops short of the last one: from the start of
question `pre.length` to the start of question `pre.length + mid.length`. -/
theorem sessionRun_inner (bank : List QuizQuestion) (mid : List QuizQuestion)
    (wmid : List (List String))
    (hw : List.Forall₂ (fun q w => ∀ o ∈ w, o ≠ q.answer) mid wmid) :
    ∀ (pre post : List QuizQuestion), bank = pre ++ mid ++ post → post ≠ [] →
      quizRun bank (atQuestion pre.length) (sessionRun mid wmid) =
        atQuestion (pre.length + mid.length) := by
  induction hw with
  | nil => intro pre post _ _; simp [sessionRun, quizRun]
  | @cons q w qs ws hqw _ ih =>
    intro pre post hbank hpost
    have hq : bank[pre.length]? = some q := by
      rw [hbank, List.append_assoc, List.cons_append]
      exact getElem?_middle pre q (qs ++ post)
    have hlen : pre.length + 1 < bank.length := by
      have : 0 < post.length := List.length_pos.mpr hpost
      simp [hbank]; omega
    rw [sessionRun_cons, quizRun_append, (answerRun_spec bank _ q hq w hqw).1, quizRun,
      advance_inner bank _ q hlen]
    have := ih (pre ++ [q]) post (by simp [hbank]) hpost
    simpa [Nat.add_assoc, Nat.add_comm 1] using this

/-- A run of questions up to and including the last one. -/
theorem sessionRun_full (bank : List QuizQuestion) (mid : List QuizQuestion)
    (wmid : List (List String))
    (hw : List.Forall₂ (fun q w => ∀ o ∈ w, o ≠ q.answer) mid wmid) :
    ∀ (pre : List QuizQuestion), bank = pre ++ mid → mid ≠ [] →
      (let t := quizRun bank (atQuestion pre.length) (sessionRun mid wmid)
       t.currentQuestionIndex + 1 = bank.length ∧ t.score = bank.length ∧
         t.quizFinished = true) ∧
      HoldsBefore bank (fun t => t.quizFinished = false) (atQuestion pre.length)
        (sessionRun mid wmid) := by
  induction hw with
  | nil => intro pre _ h; exact absurd rfl h
  | @cons q w qs ws hqw hrest ih =>
    intro pre hbank _
    have hq : bank[pre.length]? = some q := by
      rw [hbank]
      exact getElem?_middle pre q qs
    have hA := answerRun_spec bank _ q hq w hqw
    rw [sessionRun_cons]
    by_cases hqs : qs = []
    · subst hqs
      cases hrest
      have hlen : pre.length + 1 = bank.length := by simp [hbank]
      constructor
      · simp only [sessionRun, quizRun_append, hA.1, quizRun, advance_last bank _ q hlen]
        simp [justAnswered, atQuestion, initialQuiz, hlen]
      · refine holdsBefore_append bank _ _ _ _ hA.2 ?_
        rw [hA.1]
        exact holdsBefore_cons bank _ _ _ _ rfl (holdsBefore_nil bank _ _)
    · have hlen : pre.length + 1 < bank.length := by
        have : 0 < qs.length := List.length_pos.mpr hqs
        simp [hbank]; omega
      have hI := ih (pre ++ [q]) (by simp [hbank]) hqs
      have hpl : (pre ++ [q]).length = pre.length + 1 := by simp
      rw [hpl] at hI
      constructor
      · simp only [quizRun_append, hA.1, quizRun, advance_inner bank _ q hlen]
        exact hI.1
      · refine holdsBefore_append bank _ _ _ _ hA.2 ?_
        rw [hA.1]
        refine holdsBefore_cons bank _ _ _ _ rfl ?_
        rw [advance_inner bank _ q hlen]
        exact hI.2

theorem forall₂_getElem? {α β : Type} {R : α → β → Prop} {l₁ : List α} {l₂ : List β}
    (h : List.Forall₂ R l₁ l₂) :
    ∀ (k : Nat) (a : α) (b : β), l₁[k]? = some a → l₂[k]? = some b → R a b := by
  induction h with
  | nil => intro k a b ha; simp at ha
  | cons hab _ ih =>
    intro k a b ha hb
    cases k with
    | zero =>
      simp at ha hb
      subst ha; subst hb
      exact hab
    | succ k =>
      simp at ha hb
      exact ih k a b ha hb

theorem take_append_getElem? {α : Type} (l : List α) (k : Nat) (a : α) (h : l[k]? = some a) :
    l = l.take k ++ a :: l.drop (k + 1) ∧ (l.take k).length = k := by
  obtain ⟨hk, rfl⟩ := List.getElem?_eq_some_iff.mp h
  constructor
  · rw [← List.drop_eq_getElem_cons hk, List.take_append_drop]
  · simp; omega

/-- C1: for every non-empty bank and every in-order sitting (each question gets its
wrong options, each followed by its timer, then its answer, then that timer):
right after the correct selection on question `k` (0-based) the score is `k + 1`;
`quizFinished` is false before every event of the sitting, the last timer included;
and the sitting ends with `currentQuestionIndex = n - 1`, `score = n`,
`quizFinished = true`. -/
theorem C1_in_order_sitting (bank : List QuizQuestion) (wrong : List (List String))
    (hne : bank ≠ [])
    (hwrong : List.Forall₂ (fun q w => ∀ o ∈ w, o ≠ q.answer) bank wrong) :
    (∀ k q w, bank[k]? = some q → wrong[k]? = some w →
      (quizRun bank initialQuiz
        (sessionRun (bank.take k) (wrong.take k) ++ answerRun q w)).score = k + 1) ∧
    (∀ m, m < (sessionRun bank wrong).length →
      (quizRun bank initialQuiz ((sessionRun bank wrong).take m)).quizFinished = false) ∧
    (quizRun bank initialQuiz (sessionRun bank wrong)).currentQuestionIndex + 1 = bank.length ∧
    (quizRun bank initialQuiz (sessionRun bank wrong)).score = bank.length ∧
    (quizRun bank initialQuiz (sessionRun bank wrong)).quizFinished = true := by
  have hfull := sessionRun_full bank bank wrong hwrong [] rfl hne
  refine ⟨?_, hfull.2, hfull.1⟩
  intro k q w hq hw
  obtain ⟨hsplit, hlen⟩ := take_append_getElem? bank k q hq
  have hinner := sessionRun_inner bank (bank.take k) (wrong.take k)
    (List.forall₂_take k hwrong) [] (q :: bank.drop (k + 1)) (by simpa using hsplit) (by simp)
  have hstart : atQuestion ([] : List QuizQuestion).length = initialQuiz := rfl
  rw [hstart] at hinner
  rw [quizRun_append, hinner]
  simp only [List.length_nil, Nat.zero_add, hlen]
  rw [(answerRun_spec bank k q hq w (forall₂_getElem? hwrong k q w hq hw)).1]
  rfl

/-- C1 at the two-question bank made of the first two questions of the component,
the first answered wrongly once: index 1, score 2, finished. -/
theorem C1_in_order_sitting_witness :
    (quizQuestions.take 2 ≠ [] ∧
      List.Forall₂ (fun q w => ∀ o ∈ w, o ≠ q.answer) (quizQuestions.take 2)
        [["التقرير والتأكيد"], []]) ∧
    (quizRun (quizQuestions.take 2) initialQuiz
      (sessionRun (quizQuestions.take 2) [["التقرير والتأكيد"], []])).currentQuestionIndex + 1
        = (quizQuestions.take 2).length ∧
    (quizRun (quizQuestions.take 2) initialQuiz
      (sessionRun (quizQuestions.take 2) [["التقرير والتأكيد"], []])).score = 2 ∧
    (quizRun (quizQuestions.take 2) initialQuiz
      (sessionRun (quizQuestions.take 2) [["التقرير والتأكيد"], []])).quizFinished = true :=
  have hne : quizQuestions.take 2 ≠ [] := by decide
  have hw : List.Forall₂ (fun q w => ∀ o ∈ w, o ≠ q.answer) (quizQuestions.take 2)
      [["التقرير والتأكيد"], []] := by
    simp [quizQuestions]
  ⟨⟨hne, hw⟩, (C1_in_order_sitting _ _ hne hw).2.2⟩

/-! ## Quiz: the guard of `selectAnswer` -/

/-- With a non-empty selection pending, `selectAnswer` returns at its guard. -/
theorem selectAnswer_pending (bank : List QuizQuestion) (s : QuizState) (v o : String)
    (hsel : s.selectedAnswer = some v) (hv : v ≠ "") :
    selectAnswer bank s o = Except.ok s := by
  simp [selectAnswer, truthy, hsel, hv]

/-- C2, at the failing input: after `selectAnswer("")` on the initial quiz the
selection is the empty string, not `null`; a following
`selectAnswer("الإنكار والتعجب")` passes the guard, overwrites the selection, scores,
and schedules a second timer. -/
theorem C2_empty_selection_passes_guard :
    (settle (selectAnswer quizQuestions initialQuiz "")).selectedAnswer = some "" ∧
    selectAnswer quizQuestions (settle (selectAnswer quizQuestions initialQuiz ""))
        "الإنكار والتعجب" =
      Except.ok { initialQuiz with
        selectedAnswer := some "الإنكار والتعجب"
        score := 1
        timers := [QuizEffect.clearSelection, QuizEffect.advance] } ∧
    selectAnswer quizQuestions (settle (selectAnswer quizQuestions initialQuiz ""))
        "الإنكار والتعجب" ≠
      Except.ok (settle (selectAnswer quizQuestions initialQuiz "")) :=
  ⟨rfl, rfl, fun h => absurd (Except.ok.inj h) (by decide)⟩

/-! ## Quiz: `resetQuiz` and timers scheduled before it -/

theorem fireTimer_head (bank : List QuizQuestion) (s : QuizState) (e : QuizEffect)
    (rest : List QuizEffect) (h : s.timers = e :: rest) :
    fireTimer bank s 0 = runEffect bank { s with timers := rest } e := by
  simp [fireTimer, h]

/-- C3, refuted: the first answer of the component's bank is selected and
`resetQuiz` is called before the timer fires; the timer then moves the new
session to question 1.  And a wrong selection, `resetQuiz`, the correct
selection in the new session: the old timer clears that selection. -/
theorem C3_counterexample :
    ¬ SameQuizSignals
        (resetQuiz (settle (selectAnswer quizQuestions initialQuiz "الإنكار والتعجب")))
        (fireTimer quizQuestions
          (resetQuiz (settle (selectAnswer quizQuestions initialQuiz "الإنكار والتعجب"))) 0) ∧
    ¬ SameQuizSignals
        (quizRun quizQuestions initialQuiz [QuizEvent.select "التقرير والتأكيد",
          QuizEvent.reset, QuizEvent.select "الإنكار والتعجب"])
        (quizRun quizQuestions initialQuiz [QuizEvent.select "التقرير والتأكيد",
          QuizEvent.reset, QuizEvent.select "الإنكار والتعجب", QuizEvent.fire 0]) := by
  decide

/-- C3, amended: `resetQuiz`, called directly or by the timer of `closeQuiz`,
yields index 0, no selection, score 0, not finished, and leaves the pending
timers pending.  A timer of `selectAnswer` that fires afterwards runs on the
state it finds: it never changes the score; the timer of a correct answer moves
to the next question and clears the selection, or on the last index sets
`quizFinished`; the timer of an incorrect answer clears the selection and leaves
index and `quizFinished` alone. -/
theorem C3_reset_then_stale_timer (bank : List QuizQuestion) (s : QuizState) :
    ((resetQuiz s).currentQuestionIndex = 0 ∧ (resetQuiz s).selectedAnswer = none ∧
      (resetQuiz s).score = 0 ∧ (resetQuiz s).quizFinished = false ∧
      (resetQuiz s).timers = s.timers) ∧
    (s.timers = [] →
      SameQuizSignals (resetQuiz s) (fireTimer bank (closeQuiz s) 0)) ∧
    (∀ rest, s.timers = QuizEffect.advance :: rest →
      (fireTimer bank s 0).score = s.score ∧ (fireTimer bank s 0).timers = rest ∧
      (s.currentQuestionIndex + 1 < bank.length →
        (fireTimer bank s 0).currentQuestionIndex = s.currentQuestionIndex + 1 ∧
        (fireTimer bank s 0).selectedAnswer = none ∧
        (fireTimer bank s 0).quizFinished = s.quizFinished) ∧
      (bank.length ≤ s.currentQuestionIndex + 1 →
        (fireTimer bank s 0).currentQuestionIndex = s.currentQuestionIndex ∧
        (fireTimer bank s 0).selectedAnswer = s.selectedAnswer ∧
        (fireTimer bank s 0).quizFinished = true)) ∧
    (∀ rest, s.timers = QuizEffect.clearSelection :: rest →
      (fireTimer bank s 0).score = s.score ∧ (fireTimer bank s 0).timers = rest ∧
      (fireTimer bank s 0).currentQuestionIndex = s.currentQuestionIndex ∧
      (fireTimer bank s 0).selectedAnswer = none ∧
      (fireTimer bank s 0).quizFinished = s.quizFinished) := by
  refine ⟨⟨rfl, rfl, rfl, rfl, rfl⟩, ?_, ?_, ?_⟩
  · intro h
    simp [SameQuizSignals, fireTimer, closeQuiz, runEffect, resetQuiz, h]
  · intro rest h
    rw [fireTimer_head bank s _ rest h]
    refine ⟨?_, ?_, ?_, ?_⟩
    · simp only [runEffect]
      split <;> rfl
    · simp only [runEffect]
      split <;> rfl
    · intro hlt
      have : (s.currentQuestionIndex : Int) < (bank.length : Int) - 1 := by omega
      simp [runEffect, this]
    · intro hge
      have : ¬ (s.currentQuestionIndex : Int) < (bank.length : Int) - 1 := by omega
      simp [runEffect, this]
  · intro rest h
    rw [fireTimer_head bank s _ rest h]
    simp [runEffect]

/-- C3 amended, on the component's bank: the state is the new session in which the
timer of the earlier correct answer is still pending. -/
theorem C3_reset_then_stale_timer_witness :
    (resetQuiz (settle (selectAnswer quizQuestions initialQuiz "الإنكار والتعجب"))).timers
      = [QuizEffect.advance] ∧
    (fireTimer quizQuestions
      (resetQuiz (settle (selectAnswer quizQuestions initialQuiz "الإنكار والتعجب")))
        0).currentQuestionIndex = 1 :=
  ⟨by decide,
   ((C3_reset_then_stale_timer quizQuestions
      (resetQuiz (settle (selectAnswer quizQuestions initialQuiz "الإنكار والتعجب")))).2.2.1
        [] (by decide)).2.2.1 (by decide) |>.1⟩

/-! ## Quiz: the score bound -/

theorem quizInv_initial (bank : List QuizQuestion) : QuizInv bank initialQuiz := by
  simp [QuizInv, initialQuiz]

theorem quizInv_select (bank : List QuizQuestion) (s : QuizState) (o : String)
    (hinv : QuizInv bank s) (ho : o ≠ "") :
    QuizInv bank (settle (selectAnswer bank s o)) := by
  unfold selectAnswer
  by_cases hsel : truthy s.selectedAnswer = true
  · simpa [hsel, settle] using hinv
  · have hsel2 : truthy s.selectedAnswer = false := by simpa using hsel
    have hto : truthy (some o) = true := by simp [truthy, ho]
    obtain ⟨h1, h2, h3, h4⟩ := hinv
    have hcase : s.timers = [] ∧ s.score ≤ s.currentQuestionIndex := by
      rcases h4 with ⟨ht, hs⟩ | ⟨_, hs, _⟩ | ⟨_, hs, _⟩
      · exact ⟨ht, hs hsel2⟩
      · simp [hsel2] at hs
      · simp [hsel2] at hs
    obtain ⟨ht, hs⟩ := hcase
    simp only [hsel2, Bool.false_eq_true, if_false]
    cases hq : bank[s.currentQuestionIndex]? with
    | none =>
      simp only [settle]
      exact ⟨h1, h2, h3, Or.inl ⟨ht, fun h => by simp [hto] at h⟩⟩
    | some q =>
      have hlt : s.currentQuestionIndex < bank.length := (List.getElem?_eq_some_iff.mp hq).1
      by_cases hans : o = q.answer
      · simp only [hans, if_true, settle]
        refine ⟨h1, by simp only; omega, by simp only; omega, Or.inr (Or.inr ⟨by simp [ht], ?_, hlt⟩)⟩
        simpa [hans] using hto
      · simp only [hans, if_false, settle]
        exact ⟨h1, h2, h3, Or.inr (Or.inl ⟨by simp [ht], hto, hs⟩)⟩

theorem quizInv_fire (bank : List QuizQuestion) (s : QuizState) (i : Nat)
    (hinv : QuizInv bank s) : QuizInv bank (fireTimer bank s i) := by
  obtain ⟨h1, h2, h3, h4⟩ := hinv
  rcases h4 with ⟨ht, hs⟩ | ⟨ht, hs, hc⟩ | ⟨ht, hs, hc⟩
  · have : fireTimer bank s i = s := by simp [fireTimer, ht]
    rw [this]
    exact ⟨h1, h2, h3, Or.inl ⟨ht, hs⟩⟩
  · cases i with
    | zero =>
      rw [fireTimer_head bank s _ [] ht]
      exact ⟨h1, h2, h3, Or.inl ⟨rfl, fun _ => hc⟩⟩
    | succ i =>
      have : fireTimer bank s (i + 1) = s := by simp [fireTimer, ht]
      rw [this]
      exact ⟨h1, h2, h3, Or.inr (Or.inl ⟨ht, hs, hc⟩)⟩
  · cases i with
    | zero =>
      rw [fireTimer_head bank s _ [] ht]
      by_cases hlt : (s.currentQuestionIndex : Int) < (bank.length : Int) - 1
      · simp only [runEffect, hlt, if_true]
        exact ⟨by simp only; omega, h2, by simp only; omega,
          Or.inl ⟨rfl, fun _ => by simp only; omega⟩⟩
      · simp only [runEffect, hlt, if_false]
        exact ⟨h1, h2, h3, Or.inl ⟨rfl, fun h => by simp [hs] at h⟩⟩
    | succ i =>
      have : fireTimer bank s (i + 1) = s := by simp [fireTimer, ht]
      rw [this]
      exact ⟨h1, h2, h3, Or.inr (Or.inr ⟨ht, hs, hc⟩)⟩

theorem quizInv_step (bank : List QuizQuestion) (s : QuizState) (e : QuizEvent)
    (hinv : QuizInv bank s) (hadm : Admissible s e) : QuizInv bank (quizStep bank s e) := by
  cases e with
  | select o => exact quizInv_select bank s o hinv hadm
  | fire i => exact quizInv_fire bank s i hinv
  | reset =>
    have ht : s.timers = [] := hadm
    simp [quizStep, resetQuiz, QuizInv, ht]

theorem quizInv_run (bank : List QuizQuestion) (evs : List QuizEvent) :
    ∀ s, QuizInv bank s → AdmissibleRun bank s evs → QuizInv bank (quizRun bank s evs) := by
  induction evs with
  | nil => intro s h _; exact h
  | cons e es ih =>
    intro s h hadm
    exact ih _ (quizInv_step bank s e h hadm.1) hadm.2

/-- C4, refuted on the component's bank of 10 questions: `doubleCountRun` (only
`selectAnswer` calls, `resetQuiz` once, timers fired oldest first) ends with score
11. -/
theorem C4_counterexample :
    quizQuestions.length = 10 ∧
      (quizRun quizQuestions initialQuiz doubleCountRun).score = 11 := by
  decide

/-- C4, amended: along every run from the initial quiz made of `selectAnswer` calls
with non-empty options, firings of pending timers, and `resetQuiz` calls made
while no timer is pending, the score is at most `currentQuestionIndex + 1` and at
most the number of questions of the bank. -/
theorem C4_score_bound (bank : List QuizQuestion) (evs : List QuizEvent)
    (hadm : AdmissibleRun bank initialQuiz evs) :
    (quizRun bank initialQuiz evs).score ≤ (quizRun bank initialQuiz evs).currentQuestionIndex + 1 ∧
      (quizRun bank initialQuiz evs).score ≤ bank.length := by
  have h := quizInv_run bank evs initialQuiz (quizInv_initial bank) hadm
  exact ⟨h.2.2.1, h.2.1⟩

/-- C4 amended, on the component's bank: the first question answered wrongly and
then correctly, `resetQuiz` once all timers have fired, the first question
answered again. -/
theorem C4_score_bound_witness :
    AdmissibleRun quizQuestions initialQuiz
      [QuizEvent.select "التقرير والتأكيد", QuizEvent.fire 0, QuizEvent.select "الإنكار والتعجب",
        QuizEvent.fire 0, QuizEvent.reset, QuizEvent.select "الإنكار والتعجب"] ∧
    (quizRun quizQuestions initialQuiz
      [QuizEvent.select "التقرير والتأكيد", QuizEvent.fire 0, QuizEvent.select "الإنكار والتعجب",
        QuizEvent.fire 0, QuizEvent.reset, QuizEvent.select "الإنكار والتعجب"]).score
      ≤ quizQuestions.length :=
  have hadm : AdmissibleRun quizQuestions initialQuiz
      [QuizEvent.select "التقرير والتأكيد", QuizEvent.fire 0, QuizEvent.select "الإنكار والتعجب",
        QuizEvent.fire 0, QuizEvent.reset, QuizEvent.select "الإنكار والتعجب"] := by
    simp [AdmissibleRun, Admissible, quizStep, selectAnswer, settle, truthy, fireTimer, runEffect,
      initialQuiz, quizQuestions]
  ⟨hadm, (C4_score_bound quizQuestions _ hadm).2⟩

/-! ## Quiz: `getOptionClass` -/

theorem getOptionClass_other (bank : List QuizQuestion) (s : QuizState) (sel o : String)
    (hsel : s.selectedAnswer = some sel) (ho : o ≠ sel) :
    getOptionClass bank s o = some dimmedClass := by
  simp [getOptionClass, hsel, ho]

theorem getOptionClass_selected (bank : List QuizQuestion) (s : QuizState) (q : QuizQuestion)
    (sel : String) (hsel : s.selectedAnswer = some sel)
    (hq : bank[s.currentQuestionIndex]? = some q) :
    getOptionClass bank s sel =
      if sel = q.answer then some correctClass else some incorrectClass := by
  simp [getOptionClass, hsel, hq]

theorem getOptionClass_eq_correct (bank : List QuizQuestion) (s : QuizState) (q : QuizQuestion)
    (sel o : String) (hsel : s.selectedAnswer = some sel)
    (hq : bank[s.currentQuestionIndex]? = some q) :
    getOptionClass bank s o = some correctClass ↔ o = sel ∧ sel = q.answer := by
  by_cases ho : o = sel
  · subst ho
    rw [getOptionClass_selected bank s q o hsel hq]
    by_cases ha : o = q.answer
    · simp [ha]
    · simp only [ha, if_false, and_false, iff_false]
      decide
  · rw [getOptionClass_other bank s sel o hsel ho]
    simp only [ho, false_and, iff_false]
    decide

theorem getOptionClass_eq_incorrect (bank : List QuizQuestion) (s : QuizState)
    (q : QuizQuestion) (sel o : String) (hsel : s.selectedAnswer = some sel)
    (hq : bank[s.currentQuestionIndex]? = some q) :
    getOptionClass bank s o = some incorrectClass ↔ o = sel ∧ sel ≠ q.answer := by
  by_cases ho : o = sel
  · subst ho
    rw [getOptionClass_selected bank s q o hsel hq]
    by_cases ha : o = q.answer
    · simp only [ha, if_true, ne_eq, not_true_eq_false, and_false, iff_false]
      decide
    · simp [ha]
  · rw [getOptionClass_other bank s sel o hsel ho]
    simp only [ho, false_and, iff_false]
    decide

/-- C5, refuted on the component's bank: with the wrong option
`"التقرير والتأكيد"` of the first question selected, the four options (distinct,
the answer third among them) are classified incorrect, dimmed, dimmed, dimmed: the
answer is dimmed and no option is labelled correct. -/
theorem C5_counterexample :
    quizQuestions[wrongSelected.currentQuestionIndex]? = some
      { question := "في البيت الأول \"عَدِمتُكَ... أَتَجعَلُ مَن هَويتَ عَلَيكَ رَبّا\"، ما هو الغرض من الاستفهام؟"
        options := ["التقرير والتأكيد", "النفي والتكذيب", "الإنكار والتعجب", "التمني والرجاء"]
        answer := "الإنكار والتعجب" } ∧
    wrongSelected.selectedAnswer = some "التقرير والتأكيد" ∧
    ["التقرير والتأكيد", "النفي والتكذيب", "الإنكار والتعجب", "التمني والرجاء"].map
        (getOptionClass quizQuestions wrongSelected) =
      [some incorrectClass, some dimmedClass, some dimmedClass, some dimmedClass] ∧
    ["التقرير والتأكيد", "النفي والتكذيب", "الإنكار والتعجب", "التمني والرجاء"].countP
        (fun o => decide (getOptionClass quizQuestions wrongSelected o = some correctClass))
      ≠ 1 := by
  decide

/-- C5, amended: with a selection present and the current question's options
distinct and containing its answer, only the selected option is labelled and
every other option is dimmed.  When the selection is the answer, exactly one
option is labelled correct (the answer) and none incorrect.  When the selection
is not the answer, it is labelled incorrect, at most one option is, no option is
labelled correct, and the answer itself is dimmed. -/
theorem C5_option_classes (bank : List QuizQuestion) (s : QuizState) (q : QuizQuestion)
    (sel : String) (hsel : s.selectedAnswer = some sel)
    (hq : bank[s.currentQuestionIndex]? = some q)
    (hnodup : q.options.Nodup) (hans : q.answer ∈ q.options) :
    (∀ o, o ≠ sel → getOptionClass bank s o = some dimmedClass) ∧
    (sel = q.answer →
      getOptionClass bank s q.answer = some correctClass ∧
      q.options.countP (fun o => decide (getOptionClass bank s o = some correctClass)) = 1 ∧
      q.options.countP (fun o => decide (getOptionClass bank s o = some incorrectClass)) = 0) ∧
    (sel ≠ q.answer →
      getOptionClass bank s sel = some incorrectClass ∧
      q.options.countP (fun o => decide (getOptionClass bank s o = some incorrectClass)) ≤ 1 ∧
      q.options.countP (fun o => decide (getOptionClass bank s o = some correctClass)) = 0 ∧
      getOptionClass bank s q.answer = some dimmedClass) := by
  have hcount : ∀ a : String, q.options.countP (fun o => decide (o = a)) = q.options.count a := by
    intro a
    unfold List.count
    apply List.countP_congr
    intro o _
    simp
  refine ⟨fun o ho => getOptionClass_other bank s sel o hsel ho, ?_, ?_⟩
  · intro h
    refine ⟨?_, ?_, ?_⟩
    · rw [getOptionClass_eq_correct bank s q sel _ hsel hq]
      exact ⟨h.symm, h⟩
    · have : q.options.countP (fun o => decide (getOptionClass bank s o = some correctClass))
          = q.options.countP (fun o => decide (o = sel)) := by
        apply List.countP_congr
        intro o _
        simp [getOptionClass_eq_correct bank s q sel o hsel hq, h]
      rw [this, hcount, h]
      exact List.count_eq_one_of_mem hnodup hans
    · rw [List.countP_eq_zero]
      intro o _
      simp [getOptionClass_eq_incorrect bank s q sel o hsel hq, h]
  · intro h
    refine ⟨?_, ?_, ?_, ?_⟩
    · rw [getOptionClass_eq_incorrect bank s q sel _ hsel hq]
      exact ⟨rfl, h⟩
    · have : q.options.countP (fun o => decide (getOptionClass bank s o = some incorrectClass))
          = q.options.countP (fun o => decide (o = sel)) := by
        apply List.countP_congr
        intro o _
        simp [getOptionClass_eq_incorrect bank s q sel o hsel hq, h]
      rw [this, hcount]
      exact List.nodup_iff_count_le_one.mp hnodup sel
    · rw [List.countP_eq_zero]
      intro o _
      simp [getOptionClass_eq_correct bank s q sel o hsel hq, h]
    · exact getOptionClass_other bank s sel _ hsel (fun h2 => h h2.symm)

/-- C5 amended, on the component's bank with the answer of the first question
selected. -/
theorem C5_option_classes_witness :
    (quizQuestions.get ⟨0, by decide⟩).options.countP
      (fun o => decide (getOptionClass quizQuestions
        (settle (selectAnswer quizQuestions initialQuiz "الإنكار والتعجب")) o
          = some correctClass)) = 1 :=
  ((C5_option_classes quizQuestions
    (settle (selectAnswer quizQuestions initialQuiz "الإنكار والتعجب"))
    (quizQuestions.get ⟨0, by decide⟩) "الإنكار والتعجب" (by decide) (by decide) (by decide)
    (by decide)).2.1 (by decide)).2.1

/-! ## Wheel: `initializeWheel` -/

theorem buildSegments_getElem? (n i : Nat) (hi : i < n) :
    (buildSegments n)[i]? = some (makeSegment i) := by
  simp [buildSegments, List.getElem?_range hi]

theorem makeSegment_color (i : Nat) : colors[i % 4]? = some (makeSegment i).color := by
  have h : i % 4 < colors.length := Nat.mod_lt i (by decide)
  rw [List.getElem?_eq_getElem h]
  rfl

theorem segment_span (n i : Nat) :
    (segmentAngles n i).angleEnd - (segmentAngles n i).angleStart = angleStep n := by
  simp only [segmentAngles]
  ring

/-- C8: `initializeWheel` leaves exactly 34 segments; segment `i` has number
`i + 1`, is active and has the palette colour at `i mod 4`; the numbers are
1, ..., 34 in order; the span of segment `i` is from `i * step` to
`(i + 1) * step` with `step = 360 / 34` and its text angle is `(i + 1/2) * step`;
each span ends where the next begins, the first begins at 0, the last ends at
360, and the 34 spans add up to 360.  With 4 segments the same formulas give
segment 0 the span 0 to 90 with text angle 45 and segment 2 the span 180 to 270
with text angle 225. -/
theorem C8_initializeWheel (s : WheelState) :
    (initializeWheel s).wheelSegments.length = 34 ∧
    (∀ i, i < 34 → ∃ seg, (initializeWheel s).wheelSegments[i]? = some seg ∧
      seg.number = i + 1 ∧ seg.active = true ∧ colors[i % 4]? = some seg.color) ∧
    (initializeWheel s).wheelSegments.map (fun seg => seg.number) = List.range' 1 34 ∧
    (∀ i : Nat, (segmentAngles 34 i).angleStart = i * (360 / 34) ∧
      (segmentAngles 34 i).angleEnd = (i + 1) * (360 / 34) ∧
      (segmentAngles 34 i).textAngle = (i + 1 / 2) * (360 / 34) ∧
      (segmentAngles 34 i).textAngle =
        ((segmentAngles 34 i).angleStart + (segmentAngles 34 i).angleEnd) / 2 ∧
      (segmentAngles 34 i).angleStart < (segmentAngles 34 i).angleEnd ∧
      (segmentAngles 34 i).angleEnd = (segmentAngles 34 (i + 1)).angleStart) ∧
    (segmentAngles 34 0).angleStart = 0 ∧ (segmentAngles 34 33).angleEnd = 360 ∧
    ((List.range 34).map fun i =>
      (segmentAngles 34 i).angleEnd - (segmentAngles 34 i).angleStart).sum = 360 ∧
    ((segmentAngles 4 0).angleStart = 0 ∧ (segmentAngles 4 0).angleEnd = 90 ∧
      (segmentAngles 4 0).textAngle = 45) ∧
    ((segmentAngles 4 2).angleStart = 180 ∧ (segmentAngles 4 2).angleEnd = 270 ∧
      (segmentAngles 4 2).textAngle = 225) := by
  have hnum : (buildSegments 34).map (fun seg => seg.number) = List.range' 1 34 := by decide
  refine ⟨by simp [initializeWheel, buildSegments], ?_, hnum, ?_, ?_, ?_, ?_, ?_, ?_⟩
  · intro i hi
    exact ⟨makeSegment i, buildSegments_getElem? 34 i hi, rfl, rfl, makeSegment_color i⟩
  · intro i
    simp only [segmentAngles, angleStep]
    refine ⟨by norm_num, by norm_num, by push_cast; ring, by push_cast; ring, ?_, by push_cast; ring⟩
    have : (0 : ℚ) < 360 / (34 : ℕ) := by norm_num
    nlinarith
  · simp [segmentAngles]
  · simp only [segmentAngles, angleStep]
    norm_num
  · have h : ∀ i : Nat,
        (segmentAngles 34 i).angleEnd - (segmentAngles 34 i).angleStart = 360 / 34 := by
      intro i
      rw [segment_span]
      simp [angleStep]
    simp only [h]
    simp
    norm_num
  · simp only [segmentAngles, angleStep]
    norm_num
  · simp only [segmentAngles, angleStep]
    norm_num

/-! ## Wheel: the rotation written by `spinWheel` -/

/-- `r - r % 360` is a whole number of turns. -/
theorem sub_jsRem_turns (r : ℚ) : ∃ k : Int, r - jsRem r 360 = 360 * (k : ℚ) := by
  unfold jsRem
  by_cases h : 0 ≤ r / 360
  · exact ⟨⌊r / 360⌋, by simp [h]⟩
  · exact ⟨⌈r / 360⌉, by simp [h]⟩

theorem jsRem_lt (r : ℚ) : jsRem r 360 < 360 := by
  unfold jsRem
  by_cases h : 0 ≤ r / 360
  · simp only [h, if_true]
    have := Int.lt_floor_add_one (r / 360)
    linarith
  · simp only [h, if_false]
    have := Int.le_ceil (r / 360)
    have h2 : r / 360 < 0 := not_le.mp h
    linarith

theorem turns_nonneg (u : RandomValue) : (0 : ℚ) ≤ ((⌊u.val * 4⌋ + 5 : Int) : ℚ) - 5 := by
  have h : 0 ≤ ⌊u.val * 4⌋ := Int.floor_nonneg.mpr (mul_nonneg u.property.1 (by norm_num))
  have : (0 : ℚ) ≤ (⌊u.val * 4⌋ : ℚ) := by exact_mod_cast h
  push_cast
  linarith

/-- The pointer of a wheel rotated by whole turns minus `x`, `0 ≤ x < 360`, is at `x`. -/
theorem pointerAngle_of_turns (R x : ℚ) (k : Int) (hR : R = 360 * (k : ℚ) - x)
    (h0 : 0 ≤ x) (h1 : x < 360) : pointerAngle R = x := by
  unfold pointerAngle
  have hdiv : -R / 360 = ((-k : Int) : ℚ) + x / 360 := by
    rw [hR]; push_cast; ring
  have hfl : ⌊x / 360⌋ = 0 := by
    rw [Int.floor_eq_zero_iff]
    constructor
    · positivity
    · rw [div_lt_one (by norm_num)]; exact h1
  rw [hdiv, Int.floor_int_add, hfl, hR]
  push_cast
  ring

/-- The value of `finalRotation`: whole turns minus the landing angle. -/
theorem finalRotation_turns (r : ℚ) (idx : Int) (turns jitter : RandomValue) :
    ∃ k : Int, finalRotation r idx turns jitter =
      360 * (k : ℚ) - (((idx : ℚ) + 1 / 2) * (360 / 34)
        - (jitter.val - 1 / 2) * ((8 / 10) * (360 / 34))) := by
  obtain ⟨k, hk⟩ := sub_jsRem_turns r
  refine ⟨k + (⌊turns.val * 4⌋ + 5), ?_⟩
  unfold finalRotation
  simp only [hk]
  push_cast
  ring

theorem spinWheel_rotation (s : WheelState) (r : SpinRandom) (num : Nat) (idx : Int)
    (hdraw : drawSegment s r.pick = some (num, idx)) :
    (spinWheel s r).wheelRotation = finalRotation s.wheelRotation idx r.turns r.jitter := by
  simp [spinWheel, hdraw]

theorem spinWheel_rejected (s : WheelState) (r : SpinRandom)
    (hdraw : drawSegment s r.pick = none) : spinWheel s r = s := by
  simp [spinWheel, hdraw]

/-- The arithmetic of the landing angle: when the draw returns `segmentIndex = i`
with `i < 34`, the rotation written puts the top pointer at the middle of the span
from `i * step` to `(i + 1) * step` minus the jitter `(u - 1/2) * 0.8 * step`, so
strictly inside the span and at most `0.4 * step` from its middle. -/
theorem pointer_of_segmentIndex (s : WheelState) (r : SpinRandom) (num i : Nat)
    (hdraw : drawSegment s r.pick = some (num, (i : Int))) (hi : i < 34) :
    pointerAngle (spinWheel s r).wheelRotation =
      ((i : ℚ) + 1 / 2) * (360 / 34) - (r.jitter.val - 1 / 2) * ((8 / 10) * (360 / 34)) ∧
    (i : ℚ) * (360 / 34) < pointerAngle (spinWheel s r).wheelRotation ∧
    pointerAngle (spinWheel s r).wheelRotation < ((i : ℚ) + 1) * (360 / 34) ∧
    |pointerAngle (spinWheel s r).wheelRotation - ((i : ℚ) + 1 / 2) * (360 / 34)|
      ≤ (4 / 10) * (360 / 34) := by
  rw [spinWheel_rotation s r num i hdraw]
  obtain ⟨k, hk⟩ := finalRotation_turns s.wheelRotation (i : Int) r.turns r.jitter
  have hj0 := r.jitter.property.1
  have hj1 := r.jitter.property.2
  have hi0 : (0 : ℚ) ≤ (i : ℚ) := Nat.cast_nonneg i
  have hi1 : (i : ℚ) ≤ 33 := by
    have : i ≤ 33 := by omega
    exact_mod_cast this
  have hcast : (((i : Int) : ℚ)) = (i : ℚ) := by norm_cast
  rw [hcast] at hk
  have hp := pointerAngle_of_turns _ _ k hk (by nlinarith) (by nlinarith)
  rw [hp]
  refine ⟨rfl, by nlinarith, by nlinarith, ?_⟩
  rw [abs_le]
  constructor <;> nlinarith

/-! ## Wheel: drawing without replacement -/

/-- On an idle wheel with an active segment the draw succeeds, and it draws the
number of an active segment. -/
theorem drawSegment_idle (s : WheelState) (pick : RandomValue) (hs : s.isSpinning = false)
    (hact : ∃ seg ∈ s.wheelSegments, seg.active = true) :
    ∃ seg ∈ s.wheelSegments, seg.active = true ∧
      drawSegment s pick =
        some (seg.number, findIndex s.wheelSegments fun x => x.number == seg.number) := by
  obtain ⟨a, ha, hactive⟩ := hact
  have hmem : a ∈ s.wheelSegments.filter fun seg => seg.active :=
    List.mem_filter.mpr ⟨ha, hactive⟩
  have hne : (s.wheelSegments.filter fun seg => seg.active).length ≠ 0 := by
    intro h0
    rw [List.length_eq_zero] at h0
    rw [h0] at hmem
    simp at hmem
  have hin := List.get_mem (s.wheelSegments.filter fun seg => seg.active)
    (randomIndex pick _ (Nat.pos_of_ne_zero hne)).val (randomIndex pick _ (Nat.pos_of_ne_zero hne)).isLt
  rw [List.mem_filter] at hin
  refine ⟨_, hin.1, hin.2, ?_⟩
  unfold drawSegment
  simp only [hs, Bool.false_eq_true, if_false, dif_neg hne]

/-- With every segment inactive, or a spin in flight, the draw is refused. -/
theorem drawSegment_refused (s : WheelState) (pick : RandomValue)
    (h : s.isSpinning = true ∨ ∀ seg ∈ s.wheelSegments, seg.active = false) :
    drawSegment s pick = none := by
  unfold drawSegment
  rcases h with h | h
  · simp [h]
  · have : (s.wheelSegments.filter fun seg => seg.active) = [] := by
      rw [List.filter_eq_nil_iff]
      intro seg hseg
      simp [h seg hseg]
    simp [this]

theorem completeSpin_numbers (s : WheelState) (num : Nat) :
    ((completeSpin s num).wheelSegments.map fun seg => seg.number) =
      s.wheelSegments.map fun seg => seg.number := by
  simp only [completeSpin, List.map_map]
  apply List.map_congr_left
  intro seg _
  by_cases h : seg.number = num <;> simp [h]

/-- Distinct numbers, fewer than there are segments: some segment's number is not
among them. -/
theorem exists_undrawn (nums drawn : List Nat) (hnums : nums.Nodup)
    (hlt : drawn.length < nums.length) : ∃ n ∈ nums, n ∉ drawn := by
  by_contra hcon
  push_neg at hcon
  have hsub : nums ⊆ drawn := fun n hn => hcon n hn
  have := (List.Nodup.subperm hnums hsub).length_le
  omega

/-- Distinct numbers of segments, as many as there are segments: every segment's
number is among them. -/
theorem all_drawn (nums drawn : List Nat) (hdrawn : drawn.Nodup) (hsub : ∀ n ∈ drawn, n ∈ nums)
    (hlen : nums.length ≤ drawn.length) : ∀ n ∈ nums, n ∈ drawn := by
  have hperm := (List.Nodup.subperm hdrawn hsub).perm_of_length_le hlen
  intro n hn
  exact hperm.mem_iff.mpr hn

/-- One spin run to completion on an idle wheel with fewer than 34 numbers drawn:
it reports a number not drawn before and leaves an idle wheel again. -/
theorem spinToCompletion_spec (s : WheelState) (r : SpinRandom) (drawn : List Nat)
    (hinv : WheelInv s drawn) (hlt : drawn.length < 34) :
    ∃ num, num ∉ drawn ∧ (spinToCompletion s r).selectedNumberFromWheel = some num ∧
      WheelInv (spinToCompletion s r) (num :: drawn) := by
  obtain ⟨hs, ht, hlen, hnodup, hdn, hdsub, hiff⟩ := hinv
  obtain ⟨n, hn, hnd⟩ := exists_undrawn _ drawn hnodup (by simpa [hlen] using hlt)
  obtain ⟨a, ha, hna⟩ := List.mem_map.mp hn
  have hactive : a.active = true := by
    cases hact : a.active with
    | true => rfl
    | false => exact absurd ((hiff a ha).mp hact) (by rw [hna]; exact hnd)
  obtain ⟨seg, hseg, hsegact, hdraw⟩ := drawSegment_idle s r.pick hs ⟨a, ha, hactive⟩
  have hnew : seg.number ∉ drawn := by
    intro hmem
    have := (hiff seg hseg).mpr hmem
    simp [hsegact] at this
  have hrun : spinToCompletion s r =
      completeSpin { s with
        isSpinning := true
        selectedNumberFromWheel := none
        wheelRotation := finalRotation s.wheelRotation
          (findIndex s.wheelSegments fun x => x.number == seg.number) r.turns r.jitter
        timers := [] } seg.number := by
    simp [spinToCompletion, spinWheel, hdraw, ht, fireSpinTimer]
  refine ⟨seg.number, hnew, by rw [hrun]; rfl, ?_⟩
  rw [hrun]
  refine ⟨rfl, rfl, ?_, ?_, List.nodup_cons.mpr ⟨hnew, hdn⟩, ?_, ?_⟩
  · simpa [completeSpin] using hlen
  · rw [completeSpin_numbers]; exact hnodup
  · rw [completeSpin_numbers]
    intro m hm
    rcases List.mem_cons.mp hm with h | h
    · rw [h]; exact List.mem_map.mpr ⟨seg, hseg, rfl⟩
    · exact hdsub m h
  · intro seg2 hseg2
    simp only [completeSpin, List.mem_map] at hseg2
    obtain ⟨x, hx, hx2⟩ := hseg2
    by_cases hxn : x.number = seg.number
    · simp only [hxn, if_true] at hx2
      subst hx2
      simp [hxn]
    · simp only [hxn, if_false] at hx2
      subst hx2
      rw [hiff x hx]
      simp [hxn]

theorem wheelInv_fresh : WheelInv freshWheel [] := by
  refine ⟨rfl, rfl, by decide, by decide, List.nodup_nil, by simp, ?_⟩
  intro seg hseg
  have : ∀ x ∈ buildSegments 34, x.active = true := by decide
  have h := this seg hseg
  simp [h]

theorem reportedNumbers_cons (s : WheelState) (r : SpinRandom) (rs : List SpinRandom)
    (num : Nat) (h : (spinToCompletion s r).selectedNumberFromWheel = some num) :
    reportedNumbers s (r :: rs) = num :: reportedNumbers (spinToCompletion s r) rs := by
  simp [reportedNumbers, spinTrace, h]

/-- Spins run to completion from an idle wheel, as long as numbers remain: each
reports a number, the reported numbers are new and pairwise distinct, and the
wheel is idle again with exactly those numbers drawn. -/
theorem spinTrace_spec (rs : List SpinRandom) :
    ∀ (s : WheelState) (drawn : List Nat), WheelInv s drawn → drawn.length + rs.length ≤ 34 →
      (reportedNumbers s rs).length = rs.length ∧
      WheelInv (spinAll s rs) ((reportedNumbers s rs).reverse ++ drawn) := by
  induction rs with
  | nil =>
    intro s drawn hinv _
    simpa [reportedNumbers, spinTrace, spinAll] using hinv
  | cons r rs ih =>
    intro s drawn hinv hlen
    simp only [List.length_cons] at hlen
    obtain ⟨num, _, hsel, hinv2⟩ := spinToCompletion_spec s r drawn hinv (by omega)
    have h := ih (spinToCompletion s r) (num :: drawn) hinv2 (by simp only [List.length_cons]; omega)
    rw [reportedNumbers_cons s r rs num hsel]
    refine ⟨by simp [h.1], ?_⟩
    simpa [spinAll] using h.2

/-- C6: from the freshly initialised wheel, for every sequence of at most 34
triples of random results, with every spin run to completion before the next:
every spin reports a number, the reported numbers are pairwise distinct, and
after 34 spins `areAllSegmentsInactive` is true and a further `spinWheel`, with
any random results, returns the wheel unchanged. -/
theorem C6_draws_without_replacement (rs : List SpinRandom) (hlen : rs.length ≤ 34) :
    (reportedNumbers freshWheel rs).length = rs.length ∧
    (reportedNumbers freshWheel rs).Nodup ∧
    (rs.length = 34 →
      areAllSegmentsInactive (spinAll freshWheel rs) = true ∧
      ∀ r : SpinRandom, spinWheel (spinAll freshWheel rs) r = spinAll freshWheel rs) := by
  obtain ⟨hcount, hinv⟩ := spinTrace_spec rs freshWheel [] wheelInv_fresh (by simpa using hlen)
  rw [List.append_nil] at hinv
  obtain ⟨_, _, hseg, hnodup, hdn, hdsub, hiff⟩ := hinv
  refine ⟨hcount, List.nodup_reverse.mp hdn, ?_⟩
  intro h34
  have hall : ∀ seg ∈ (spinAll freshWheel rs).wheelSegments, seg.active = false := by
    intro seg hmem
    rw [hiff seg hmem]
    refine all_drawn _ _ hdn hdsub ?_ _ (List.mem_map.mpr ⟨seg, hmem, rfl⟩)
    simp [hseg, hcount, h34]
  constructor
  · simp only [areAllSegmentsInactive, List.all_eq_true]
    intro seg hmem
    simp [hall seg hmem]
  · intro r
    exact spinWheel_rejected _ r (drawSegment_refused _ r.pick (Or.inr hall))

/-- C6 at 34 spins whose random results are all 0. -/
theorem C6_draws_without_replacement_witness :
    (List.replicate 34 zeroSpin).length ≤ 34 ∧
    (reportedNumbers freshWheel (List.replicate 34 zeroSpin)).Nodup ∧
    areAllSegmentsInactive (spinAll freshWheel (List.replicate 34 zeroSpin)) = true :=
  ⟨by simp,
   (C6_draws_without_replacement (List.replicate 34 zeroSpin) (by simp)).2.1,
   ((C6_draws_without_replacement (List.replicate 34 zeroSpin) (by simp)).2.2 (by simp)).1⟩

theorem randomIndex_zero (len : Nat) (h : 0 < len) : randomIndex zeroRandom len h = ⟨0, h⟩ := by
  apply Fin.ext
  simp [randomIndex, zeroRandom]

/-- On the fresh wheel the random pick 0 draws number 1, the segment at index 0. -/
theorem drawSegment_fresh_zero :
    drawSegment freshWheel zeroSpin.pick = some (1, ((0 : Nat) : Int)) := by
  have hne : (freshWheel.wheelSegments.filter fun seg => seg.active).length ≠ 0 := by decide
  show drawSegment freshWheel zeroRandom = _
  unfold drawSegment
  simp only [dif_neg hne, randomIndex_zero]
  rfl

/-! ## Wheel: the rotation never goes back -/

theorem findIndex_lt (l : List WheelSegment) (p : WheelSegment → Bool) :
    findIndex l p < (l.length : Int) := by
  unfold findIndex
  split
  · exact_mod_cast ‹List.findIdx p l < l.length›
  · omega

theorem drawSegment_index_lt (s : WheelState) (pick : RandomValue) (num : Nat) (idx : Int)
    (h : drawSegment s pick = some (num, idx)) : idx < (s.wheelSegments.length : Int) := by
  unfold drawSegment at h
  split at h
  · simp at h
  · dsimp only at h
    split at h
    · simp at h
    · simp only [Option.some.injEq, Prod.mk.injEq] at h
      rw [← h.2]
      exact findIndex_lt _ _

theorem finalRotation_gt (r : ℚ) (idx : Int) (turns jitter : RandomValue) (hidx : idx ≤ 33) :
    r < finalRotation r idx turns jitter := by
  have h1 := jsRem_lt r
  have h2 := turns_nonneg turns
  have h3 := jitter.property.1
  have h4 : (idx : ℚ) ≤ 33 := by exact_mod_cast hidx
  unfold finalRotation
  simp only []
  linarith

theorem spinWheel_segments (s : WheelState) (r : SpinRandom) :
    (spinWheel s r).wheelSegments = s.wheelSegments := by
  unfold spinWheel
  split <;> rfl

theorem spinWheel_rotation_le (s : WheelState) (r : SpinRandom)
    (hlen : s.wheelSegments.length ≤ 34) :
    s.wheelRotation ≤ (spinWheel s r).wheelRotation := by
  cases hdraw : drawSegment s r.pick with
  | none => rw [spinWheel_rejected s r hdraw]
  | some p =>
    obtain ⟨num, idx⟩ := p
    rw [spinWheel_rotation s r num idx hdraw]
    have := drawSegment_index_lt s r.pick num idx hdraw
    exact le_of_lt (finalRotation_gt _ idx _ _ (by omega))

theorem fireSpinTimer_rotation (s : WheelState) :
    (fireSpinTimer s).wheelRotation = s.wheelRotation ∧
      (fireSpinTimer s).wheelSegments.length = s.wheelSegments.length := by
  unfold fireSpinTimer
  split
  · exact ⟨rfl, rfl⟩
  · simp [completeSpin]

theorem wheelRun_rotation_le (evs : List WheelEvent) :
    ∀ s : WheelState, s.wheelSegments.length ≤ 34 → (∀ e ∈ evs, e ≠ WheelEvent.init) →
      s.wheelRotation ≤ (wheelRun s evs).wheelRotation := by
  induction evs with
  | nil => intro s _ _; exact le_refl _
  | cons e es ih =>
    intro s hlen hne
    have hes : ∀ x ∈ es, x ≠ WheelEvent.init := fun x hx => hne x (by simp [hx])
    cases e with
    | spin r =>
      exact le_trans (spinWheel_rotation_le s r hlen)
        (ih (spinWheel s r) (by rw [spinWheel_segments]; exact hlen) hes)
    | fire =>
      have h := fireSpinTimer_rotation s
      exact le_trans (le_of_eq h.1.symm) (ih (fireSpinTimer s) (by rw [h.2]; exact hlen) hes)
    | init => exact absurd rfl (hne WheelEvent.init (by simp))

/-- C10: on a wheel of at most 34 segments, a `spinWheel` call that passes its
guards writes a rotation strictly greater than the current one, whatever the
current rotation, the chosen segment and the random results; and along any
sequence of `spinWheel` calls and timer firings without `initializeWheel` the
rotation never goes below an earlier value. -/
theorem C10_rotation_increases (s : WheelState) (hlen : s.wheelSegments.length ≤ 34) :
    (∀ (r : SpinRandom) (num : Nat) (idx : Int), drawSegment s r.pick = some (num, idx) →
      s.wheelRotation < (spinWheel s r).wheelRotation) ∧
    (∀ evs : List WheelEvent, (∀ e ∈ evs, e ≠ WheelEvent.init) →
      s.wheelRotation ≤ (wheelRun s evs).wheelRotation) := by
  constructor
  · intro r num idx hdraw
    rw [spinWheel_rotation s r num idx hdraw]
    have := drawSegment_index_lt s r.pick num idx hdraw
    exact finalRotation_gt _ idx _ _ (by omega)
  · intro evs hne
    exact wheelRun_rotation_le evs s hlen hne

/-- C10 on the fresh wheel, all random results 0. -/
theorem C10_rotation_increases_witness :
    freshWheel.wheelSegments.length ≤ 34 ∧
      freshWheel.wheelRotation < (spinWheel freshWheel zeroSpin).wheelRotation :=
  ⟨by decide,
   (C10_rotation_increases freshWheel (by decide)).1 zeroSpin 1 ((0 : Nat) : Int)
     drawSegment_fresh_zero⟩

/-! ## Wheel: `initializeWheel` during a spin -/

theorem spinWheel_passed (s : WheelState) (r : SpinRandom) (num : Nat) (idx : Int)
    (hdraw : drawSegment s r.pick = some (num, idx)) :
    spinWheel s r =
      { s with
        isSpinning := true
        selectedNumberFromWheel := none
        wheelRotation := finalRotation s.wheelRotation idx r.turns r.jitter
        timers := s.timers ++ [num] } := by
  simp [spinWheel, hdraw]

theorem fireSpinTimer_head (s : WheelState) (num : Nat) (rest : List Nat)
    (h : s.timers = num :: rest) :
    fireSpinTimer s = completeSpin { s with timers := rest } num := by
  simp only [fireSpinTimer, h]

theorem spinWheel_fresh_zero :
    (spinWheel freshWheel zeroSpin).isSpinning = true ∧
      (spinWheel freshWheel zeroSpin).timers = [1] := by
  rw [spinWheel_passed freshWheel zeroSpin 1 _ drawSegment_fresh_zero]
  exact ⟨rfl, rfl⟩

/-- C9, refuted: a spin is started on the fresh wheel (random results 0, number 1
drawn), `initializeWheel` is called while it is in flight, and its callback then
fires: `selectedNumberFromWheel` is 1 and the segment numbered 1 of the new
session is inactive. -/
theorem C9_counterexample :
    (spinWheel freshWheel zeroSpin).isSpinning = true ∧
    (fireSpinTimer (initializeWheel (spinWheel freshWheel zeroSpin))).selectedNumberFromWheel
      = some 1 ∧
    (fireSpinTimer (initializeWheel (spinWheel freshWheel zeroSpin))).wheelSegments[0]?
      = some { color := "#c9a969", number := 1, active := false } ∧
    ¬ ∀ seg ∈ (fireSpinTimer (initializeWheel (spinWheel freshWheel zeroSpin))).wheelSegments,
        seg.active = true := by
  have ht : (initializeWheel (spinWheel freshWheel zeroSpin)).timers = [1] :=
    spinWheel_fresh_zero.2
  have hseg : (fireSpinTimer (initializeWheel (spinWheel freshWheel zeroSpin))).wheelSegments
      = (buildSegments 34).map fun seg =>
          if seg.number = 1 then { seg with active := false } else seg := by
    rw [fireSpinTimer_head _ 1 [] ht]
    rfl
  refine ⟨spinWheel_fresh_zero.1, ?_, ?_, ?_⟩
  · rw [fireSpinTimer_head _ 1 [] ht]
    rfl
  · rw [hseg]; decide
  · rw [hseg]; decide

/-- C9, amended: `initializeWheel` called while the callback of a spin that drew
`num` (one of 1, ..., 34) is pending leaves 34 active segments, no selected number
and the callback still pending; when the callback then fires it runs on the new
session: `isSpinning` becomes false, `selectedNumberFromWheel` becomes `num`, the
segment numbered `num` becomes inactive and the other 33 stay active. -/
theorem C9_initialize_during_spin (s : WheelState) (num : Nat) (rest : List Nat)
    (hpending : s.timers = num :: rest) (hnum : 1 ≤ num ∧ num ≤ 34) :
    ((initializeWheel s).wheelSegments.length = 34 ∧
      (∀ seg ∈ (initializeWheel s).wheelSegments, seg.active = true) ∧
      (initializeWheel s).selectedNumberFromWheel = none ∧
      (initializeWheel s).isSpinning = s.isSpinning ∧
      (initializeWheel s).timers = num :: rest) ∧
    ((fireSpinTimer (initializeWheel s)).isSpinning = false ∧
      (fireSpinTimer (initializeWheel s)).selectedNumberFromWheel = some num ∧
      (fireSpinTimer (initializeWheel s)).timers = rest ∧
      (fireSpinTimer (initializeWheel s)).wheelSegments.length = 34 ∧
      (∀ seg ∈ (fireSpinTimer (initializeWheel s)).wheelSegments,
        seg.active = false ↔ seg.number = num) ∧
      (fireSpinTimer (initializeWheel s)).wheelSegments.countP (fun seg => seg.active) = 33) := by
  have ht : (initializeWheel s).timers = num :: rest := hpending
  have hseg : (fireSpinTimer (initializeWheel s)).wheelSegments
      = (buildSegments 34).map fun seg =>
          if seg.number = num then { seg with active := false } else seg := by
    rw [fireSpinTimer_head _ num rest ht]
    rfl
  have hall : ∀ seg ∈ buildSegments 34, seg.active = true := by decide
  refine ⟨⟨by simp [initializeWheel, buildSegments], hall, rfl, rfl, ht⟩, ?_, ?_, ?_, ?_, ?_, ?_⟩
  · rw [fireSpinTimer_head _ num rest ht]; rfl
  · rw [fireSpinTimer_head _ num rest ht]; rfl
  · rw [fireSpinTimer_head _ num rest ht]; rfl
  · rw [hseg]; simp [buildSegments]
  · rw [hseg]
    intro seg hmem
    obtain ⟨x, hx, hx2⟩ := List.mem_map.mp hmem
    by_cases hxn : x.number = num
    · simp only [hxn, if_true] at hx2
      subst hx2
      simp [hxn]
    · simp only [hxn, if_false] at hx2
      subst hx2
      simp [hall x hx, hxn]
  · rw [hseg]
    have hcount : ∀ n ∈ List.range' 1 34,
        ((buildSegments 34).map fun seg =>
          if seg.number = n then { seg with active := false } else seg).countP
            (fun seg => seg.active) = 33 := by decide
    exact hcount num (List.mem_range'_1.mpr ⟨hnum.1, by omega⟩)

/-- C9 amended, at the wheel on which a spin that drew number 1 is in flight. -/
theorem C9_initialize_during_spin_witness :
    ((spinWheel freshWheel zeroSpin).timers = [1] ∧ (1 ≤ 1 ∧ 1 ≤ 34)) ∧
    (fireSpinTimer (initializeWheel (spinWheel freshWheel zeroSpin))).wheelSegments.countP
      (fun seg => seg.active) = 33 :=
  ⟨⟨spinWheel_fresh_zero.2, by decide⟩,
   (C9_initialize_during_spin (spinWheel freshWheel zeroSpin) 1 [] spinWheel_fresh_zero.2
     (by decide)).2.2.2.2.2.2⟩

/-! ## Wheel: refused spins -/

/-- C13: with a spin in flight, or with no active segment, `spinWheel` returns the
wheel it was given, for any random results: segments, rotation, `isSpinning`,
`selectedNumberFromWheel` and the pending callbacks are all unchanged. -/
theorem C13_spin_refused (s : WheelState) (r : SpinRandom)
    (h : s.isSpinning = true ∨ ∀ seg ∈ s.wheelSegments, seg.active = false) :
    spinWheel s r = s ∧
      (spinWheel s r).wheelSegments = s.wheelSegments ∧
      (spinWheel s r).wheelRotation = s.wheelRotation ∧
      (spinWheel s r).isSpinning = s.isSpinning ∧
      (spinWheel s r).selectedNumberFromWheel = s.selectedNumberFromWheel ∧
      (spinWheel s r).timers = s.timers := by
  have hs : spinWheel s r = s := spinWheel_rejected s r (drawSegment_refused s r.pick h)
  rw [hs]
  exact ⟨rfl, rfl, rfl, rfl, rfl, rfl⟩

/-- C13 on the wheel on which the spin started on the fresh wheel is in flight. -/
theorem C13_spin_refused_witness :
    (spinWheel freshWheel zeroSpin).isSpinning = true ∧
      spinWheel (spinWheel freshWheel zeroSpin) zeroSpin = spinWheel freshWheel zeroSpin :=
  ⟨spinWheel_fresh_zero.1,
   (C13_spin_refused (spinWheel freshWheel zeroSpin) zeroSpin
     (Or.inl spinWheel_fresh_zero.1)).1⟩

/-! ## Quiz: a wrong selection -/

/-- The timer scheduled last is at position `timers.length` of the longer list. -/
theorem fireTimer_last (bank : List QuizQuestion) (s : QuizState) (e : QuizEffect)
    (old : List QuizEffect) (h : s.timers = old ++ [e]) :
    fireTimer bank s old.length = runEffect bank { s with timers := old } e := by
  have hget : (old ++ [e])[old.length]? = some e := by
    rw [List.getElem?_append_right (Nat.le_refl _)]
    simp
  have herase : (old ++ [e]).eraseIdx old.length = old := by
    rw [List.eraseIdx_append_of_length_le (Nat.le_refl _)]
    simp
  simp only [fireTimer, h, hget, herase]

/-- C12: with nothing selected and an option other than the current question's
answer (one of its options or not), `selectAnswer` returns with the option
selected, one more timer pending, and score, index and `quizFinished` as they
were; when that timer fires, `selectedAnswer` is none again, score, index and
`quizFinished` are still as they were, and the same question is current. -/
theorem C12_wrong_selection (bank : List QuizQuestion) (s : QuizState) (q : QuizQuestion)
    (option : String) (hsel : s.selectedAnswer = none)
    (hq : bank[s.currentQuestionIndex]? = some q) (hwrong : option ≠ q.answer) :
    ∃ t, selectAnswer bank s option = Except.ok t ∧
      (t.selectedAnswer = some option ∧ t.score = s.score ∧
        t.currentQuestionIndex = s.currentQuestionIndex ∧ t.quizFinished = s.quizFinished ∧
        t.timers = s.timers ++ [QuizEffect.clearSelection]) ∧
      ((fireTimer bank t s.timers.length).selectedAnswer = none ∧
        (fireTimer bank t s.timers.length).score = s.score ∧
        (fireTimer bank t s.timers.length).currentQuestionIndex = s.currentQuestionIndex ∧
        (fireTimer bank t s.timers.length).quizFinished = s.quizFinished ∧
        (fireTimer bank t s.timers.length).timers = s.timers ∧
        bank[(fireTimer bank t s.timers.length).currentQuestionIndex]? = some q) := by
  refine ⟨{ s with
    selectedAnswer := some option
    timers := s.timers ++ [QuizEffect.clearSelection] }, ?_, ⟨rfl, rfl, rfl, rfl, rfl⟩, ?_⟩
  · simp [selectAnswer, truthy, hsel, hq, hwrong]
  · rw [fireTimer_last bank _ QuizEffect.clearSelection s.timers rfl]
    exact ⟨rfl, rfl, rfl, rfl, rfl, hq⟩

/-- C12 on the component's bank: the wrong option `"التقرير والتأكيد"` on the initial
quiz, and an option that is none of the question's options. -/
theorem C12_wrong_selection_witness :
    (initialQuiz.selectedAnswer = none ∧
      quizQuestions[initialQuiz.currentQuestionIndex]? = some (quizQuestions.get ⟨0, by decide⟩) ∧
      "التقرير والتأكيد" ≠ (quizQuestions.get ⟨0, by decide⟩).answer) ∧
    ∃ t, selectAnswer quizQuestions initialQuiz "التقرير والتأكيد" = Except.ok t ∧
      (fireTimer quizQuestions t initialQuiz.timers.length).selectedAnswer = none ∧
      (fireTimer quizQuestions t initialQuiz.timers.length).score = 0 :=
  have h1 : initialQuiz.selectedAnswer = none := rfl
  have h2 : quizQuestions[initialQuiz.currentQuestionIndex]?
      = some (quizQuestions.get ⟨0, by decide⟩) := by decide
  have h3 : "التقرير والتأكيد" ≠ (quizQuestions.get ⟨0, by decide⟩).answer := by decide
  ⟨⟨h1, h2, h3⟩,
   (C12_wrong_selection quizQuestions initialQuiz _ "التقرير والتأكيد" h1 h2 h3).elim
     fun t ht => ⟨t, ht.1, ht.2.2.1, ht.2.2.2.1⟩⟩

/-! ## Quiz: the current question always exists -/

theorem runEffect_index_lt (bank : List QuizQuestion) (s : QuizState) (e : QuizEffect)
    (h : s.currentQuestionIndex < bank.length) :
    (runEffect bank s e).currentQuestionIndex < bank.length := by
  cases e with
  | advance =>
    by_cases hlt : (s.currentQuestionIndex : Int) < (bank.length : Int) - 1
    · simp only [runEffect, hlt, if_true]
      omega
    · simp only [runEffect, hlt, if_false]
      exact h
  | clearSelection => exact h
  | reset =>
    simp only [runEffect, resetQuiz]
    omega

theorem fireTimer_index_lt (bank : List QuizQuestion) (s : QuizState) (i : Nat)
    (h : s.currentQuestionIndex < bank.length) :
    (fireTimer bank s i).currentQuestionIndex < bank.length := by
  unfold fireTimer
  split
  · exact h
  · exact runEffect_index_lt bank _ _ h

theorem selectAnswer_index (bank : List QuizQuestion) (s : QuizState) (o : String) :
    (settle (selectAnswer bank s o)).currentQuestionIndex = s.currentQuestionIndex := by
  unfold selectAnswer
  split
  · rfl
  · dsimp only
    split
    · rfl
    · split <;> rfl

theorem quizStep_index_lt (bank : List QuizQuestion) (s : QuizState) (e : QuizEvent)
    (h : s.currentQuestionIndex < bank.length) :
    (quizStep bank s e).currentQuestionIndex < bank.length := by
  cases e with
  | select o =>
    simp only [quizStep]
    rw [selectAnswer_index]
    exact h
  | fire i => exact fireTimer_index_lt bank s i h
  | reset =>
    simp only [quizStep, resetQuiz]
    omega

theorem quizRun_index_lt (bank : List QuizQuestion) (evs : List QuizEvent) :
    ∀ s : QuizState, s.currentQuestionIndex < bank.length →
      (quizRun bank s evs).currentQuestionIndex < bank.length := by
  induction evs with
  | nil => intro s h; exact h
  | cons e es ih => intro s h; exact ih _ (quizStep_index_lt bank s e h)

/-- With the index in range `selectAnswer` returns, it does not throw. -/
theorem selectAnswer_returns (bank : List QuizQuestion) (s : QuizState) (o : String)
    (h : s.currentQuestionIndex < bank.length) : ∃ t, selectAnswer bank s o = Except.ok t := by
  unfold selectAnswer
  split
  · exact ⟨_, rfl⟩
  · dsimp only
    rw [List.getElem?_eq_getElem h]
    dsimp only
    split
    · exact ⟨_, rfl⟩
    · exact ⟨_, rfl⟩

/-- With the index in range `getOptionClass` returns a class, it does not throw. -/
theorem getOptionClass_returns (bank : List QuizQuestion) (s : QuizState) (o : String)
    (h : s.currentQuestionIndex < bank.length) : ∃ c, getOptionClass bank s o = some c := by
  unfold getOptionClass
  split
  · exact ⟨_, rfl⟩
  · dsimp only
    split
    · exact ⟨_, rfl⟩
    · rw [List.getElem?_eq_getElem h]
      dsimp only
      split
      · exact ⟨_, rfl⟩
      · exact ⟨_, rfl⟩

/-- C14: for every non-empty bank, after any sequence of `selectAnswer` calls (any
option strings), firings of pending timers (in any order, timers left pending
across a reset included) and `resetQuiz` calls from the initial quiz,
`currentQuestionIndex` (a natural number, so at least 0) is below the number of
questions; hence `bank[currentQuestionIndex]` is a question, `selectAnswer`
returns and `getOptionClass` returns a class, for every option. -/
theorem C14_index_in_range (bank : List QuizQuestion) (hne : bank ≠ [])
    (evs : List QuizEvent) :
    (quizRun bank initialQuiz evs).currentQuestionIndex < bank.length ∧
    (∃ q, bank[(quizRun bank initialQuiz evs).currentQuestionIndex]? = some q) ∧
    (∀ o, ∃ t, selectAnswer bank (quizRun bank initialQuiz evs) o = Except.ok t) ∧
    (∀ o, ∃ c, getOptionClass bank (quizRun bank initialQuiz evs) o = some c) := by
  have h0 : initialQuiz.currentQuestionIndex < bank.length := List.length_pos.mpr hne
  have h := quizRun_index_lt bank evs initialQuiz h0
  exact ⟨h, ⟨_, List.getElem?_eq_getElem h⟩, fun o => selectAnswer_returns bank _ o h,
    fun o => getOptionClass_returns bank _ o h⟩

/-- C14 on the component's bank, at the end of `doubleCountRun` (a run with a
timer left pending across a reset). -/
theorem C14_index_in_range_witness :
    quizQuestions ≠ [] ∧
      (quizRun quizQuestions initialQuiz doubleCountRun).currentQuestionIndex
        < quizQuestions.length :=
  ⟨by decide, (C14_index_in_range quizQuestions (by decide) doubleCountRun).1⟩

/-! ## Wheel: one spin in flight at most -/

/-- A draw that succeeds was made on an idle wheel and drew the number of an
active segment. -/
theorem drawSegment_some (s : WheelState) (pick : RandomValue) (num : Nat) (idx : Int)
    (h : drawSegment s pick = some (num, idx)) :
    s.isSpinning = false ∧ ∃ seg ∈ s.wheelSegments, seg.active = true ∧ seg.number = num := by
  have hidle : s.isSpinning = false := by
    cases hsp : s.isSpinning with
    | false => rfl
    | true =>
      rw [drawSegment_refused s pick (Or.inl hsp)] at h
      simp at h
  have hact : ∃ seg ∈ s.wheelSegments, seg.active = true := by
    by_contra hcon
    push_neg at hcon
    have hall : ∀ seg ∈ s.wheelSegments, seg.active = false := by
      intro seg hseg
      simpa using hcon seg hseg
    rw [drawSegment_refused s pick (Or.inr hall)] at h
    simp at h
  obtain ⟨seg, hseg, hsegact, hdraw⟩ := drawSegment_idle s pick hidle hact
  rw [hdraw] at h
  simp only [Option.some.injEq, Prod.mk.injEq] at h
  exact ⟨hidle, seg, hseg, hsegact, h.1⟩

theorem spinInv_fresh : SpinInv freshWheel := by
  refine ⟨by decide, Or.inl ⟨rfl, rfl⟩, ?_⟩
  intro n hn
  simp [freshWheel, initializeWheel] at hn

theorem spinInv_spin (s : WheelState) (r : SpinRandom) (hinv : SpinInv s) :
    SpinInv (spinWheel s r) := by
  cases hdraw : drawSegment s r.pick with
  | none => rw [spinWheel_rejected s r hdraw]; exact hinv
  | some p =>
    obtain ⟨num, idx⟩ := p
    obtain ⟨hidle, seg, hseg, _, hnum⟩ := drawSegment_some s r.pick num idx hdraw
    obtain ⟨hnums, hpend, _⟩ := hinv
    have ht : s.timers = [] := by
      rcases hpend with ⟨ht, _⟩ | ⟨_, _, hsp, _⟩
      · exact ht
      · rw [hidle] at hsp
        simp at hsp
    have hmem : num ∈ List.range' 1 34 := by
      rw [← hnums, ← hnum]
      exact List.mem_map.mpr ⟨seg, hseg, rfl⟩
    rw [spinWheel_passed s r num idx hdraw]
    refine ⟨hnums, Or.inr ⟨num, by simp [ht], rfl, hmem⟩, ?_⟩
    intro n hn
    simp at hn

theorem spinInv_fire (s : WheelState) (hinv : SpinInv s) : SpinInv (fireSpinTimer s) := by
  obtain ⟨hnums, hpend, hsel⟩ := hinv
  rcases hpend with ⟨ht, hsp⟩ | ⟨num, ht, hsp, hmem⟩
  · have : fireSpinTimer s = s := by simp [fireSpinTimer, ht]
    rw [this]
    exact ⟨hnums, Or.inl ⟨ht, hsp⟩, hsel⟩
  · rw [fireSpinTimer_head s num [] ht]
    refine ⟨?_, Or.inl ⟨rfl, rfl⟩, ?_⟩
    · rw [completeSpin_numbers]
      exact hnums
    · intro n hn
      have hn2 : num = n := by simpa [completeSpin] using hn
      subst hn2
      refine ⟨hmem, ?_⟩
      intro seg hseg hsegnum
      simp only [completeSpin, List.mem_map] at hseg
      obtain ⟨x, _, hx2⟩ := hseg
      by_cases hxn : x.number = num
      · simp only [hxn, if_true] at hx2
        rw [← hx2]
      · simp only [hxn, if_false] at hx2
        rw [← hx2] at hsegnum
        exact absurd hsegnum hxn

theorem spinInv_init (s : WheelState) (hinv : SpinInv s) : SpinInv (initializeWheel s) := by
  obtain ⟨_, hpend, _⟩ := hinv
  have hnums : (buildSegments 34).map (fun seg => seg.number) = List.range' 1 34 := by decide
  refine ⟨hnums, hpend, ?_⟩
  intro n hn
  simp [initializeWheel] at hn

theorem spinInv_run (evs : List WheelEvent) :
    ∀ s : WheelState, SpinInv s → SpinInv (wheelRun s evs) := by
  induction evs with
  | nil => intro s h; exact h
  | cons e es ih =>
    intro s h
    cases e with
    | spin r => exact ih _ (spinInv_spin s r h)
    | fire => exact ih _ (spinInv_fire s h)
    | init => exact ih _ (spinInv_init s h)

/-- C11: after any sequence of `spinWheel` calls (any random results), firings of
pending callbacks and `initializeWheel` calls from the fresh wheel, at most one
callback is pending, one is pending exactly when `isSpinning` is true, and when
`selectedNumberFromWheel` is a number there is a segment with that number and
every segment with that number is inactive. -/
theorem C11_one_spin_in_flight (evs : List WheelEvent) :
    (wheelRun freshWheel evs).timers.length ≤ 1 ∧
    ((wheelRun freshWheel evs).timers.length = 1 ↔
      (wheelRun freshWheel evs).isSpinning = true) ∧
    (∀ n, (wheelRun freshWheel evs).selectedNumberFromWheel = some n →
      (∃ seg ∈ (wheelRun freshWheel evs).wheelSegments, seg.number = n) ∧
      ∀ seg ∈ (wheelRun freshWheel evs).wheelSegments, seg.number = n → seg.active = false) := by
  obtain ⟨hnums, hpend, hsel⟩ := spinInv_run evs freshWheel spinInv_fresh
  refine ⟨?_, ?_, ?_⟩
  · rcases hpend with ⟨ht, _⟩ | ⟨num, ht, _, _⟩ <;> simp [ht]
  · rcases hpend with ⟨ht, hsp⟩ | ⟨num, ht, hsp, _⟩ <;> simp [ht, hsp]
  · intro n hn
    obtain ⟨hmem, hinactive⟩ := hsel n hn
    refine ⟨?_, hinactive⟩
    rw [← hnums] at hmem
    obtain ⟨seg, hseg, hsegnum⟩ := List.mem_map.mp hmem
    exact ⟨seg, hseg, hsegnum⟩

/-! ## Wheel: the pointer lands on the drawn segment -/

/-- The value of the draw on an idle wheel with an active segment, spelled out. -/
theorem drawSegment_pick (s : WheelState) (pick : RandomValue) (hs : s.isSpinning = false)
    (hne : (s.wheelSegments.filter fun seg => seg.active).length ≠ 0) :
    drawSegment s pick =
      some (((s.wheelSegments.filter fun seg => seg.active).get
          (randomIndex pick _ (Nat.pos_of_ne_zero hne))).number,
        findIndex s.wheelSegments fun x => x.number ==
          ((s.wheelSegments.filter fun seg => seg.active).get
            (randomIndex pick _ (Nat.pos_of_ne_zero hne))).number) := by
  unfold drawSegment
  simp only [hs, Bool.false_eq_true, if_false, dif_neg hne]

/-- With distinct numbers, `findIndex` by the number of a segment of the list
returns the position of that very segment. -/
theorem findIndex_of_mem (l : List WheelSegment) (seg : WheelSegment) (hseg : seg ∈ l)
    (hnodup : (l.map fun x => x.number).Nodup) :
    ∃ i : Nat, i < l.length ∧ l[i]? = some seg ∧
      findIndex l (fun x => x.number == seg.number) = (i : Int) := by
  obtain ⟨j, hj, hjeq⟩ := List.getElem_of_mem hseg
  have hex : ∃ x ∈ l, (fun x : WheelSegment => x.number == seg.number) x = true :=
    ⟨seg, hseg, by simp⟩
  have hlt : l.findIdx (fun x => x.number == seg.number) < l.length :=
    List.findIdx_lt_length_of_exists hex
  have hp : (l[l.findIdx (fun x => x.number == seg.number)]).number = seg.number := by
    have := List.findIdx_getElem (p := fun x : WheelSegment => x.number == seg.number) (w := hlt)
    simpa using this
  have hlt2 : l.findIdx (fun x => x.number == seg.number) < (l.map fun x => x.number).length := by
    simpa using hlt
  have hj2 : j < (l.map fun x => x.number).length := by simpa using hj
  have heq : (l.map fun x => x.number)[l.findIdx (fun x => x.number == seg.number)]
      = (l.map fun x => x.number)[j] := by
    simp only [List.getElem_map]
    rw [hp, hjeq]
  have hidx : l.findIdx (fun x => x.number == seg.number) = j :=
    (List.Nodup.getElem_inj_iff hnodup).mp heq
  refine ⟨j, hj, ?_, ?_⟩
  · rw [List.getElem?_eq_getElem hj, hjeq]
  · unfold findIndex
    rw [hidx]
    simp [hj]

/-- C7: on every idle wheel with an active segment, distinct segment numbers and
at most 34 segments, for every current rotation and all random results,
`spinWheel` draws the segment `seg` that the pick selects among the active ones;
`seg` is active and is the segment at an index `i < 34` of `wheelSegments`, the
draw returns its number and that index, the callback scheduled carries its
number, and the rotation written puts the top pointer, `(-R) mod 360`, at the
middle `(i + 1/2) * step` of the span of segment `i` minus the jitter
`(u - 1/2) * 0.8 * step`: strictly inside the span, from `i * step` to
`(i + 1) * step`, and at most `0.4 * step` from its middle (`step = 360 / 34`).
The arithmetic is exact; the distance `0.4 * step` is reached at jitter 0 only. -/
theorem C7_pointer_in_wedge (s : WheelState) (r : SpinRandom)
    (hidle : s.isSpinning = false)
    (hact : ∃ seg ∈ s.wheelSegments, seg.active = true)
    (hnodup : (s.wheelSegments.map fun seg => seg.number).Nodup)
    (hlen : s.wheelSegments.length ≤ 34) :
    ∃ (i : Nat) (seg : WheelSegment),
      (s.wheelSegments.filter fun x => x.active)[
          ⌊r.pick.val * ((s.wheelSegments.filter fun x => x.active).length : ℚ)⌋.toNat]?
        = some seg ∧
      seg.active = true ∧ i < 34 ∧ s.wheelSegments[i]? = some seg ∧
      drawSegment s r.pick = some (seg.number, (i : Int)) ∧
      (spinWheel s r).timers = s.timers ++ [seg.number] ∧
      pointerAngle (spinWheel s r).wheelRotation =
        ((i : ℚ) + 1 / 2) * (360 / 34) - (r.jitter.val - 1 / 2) * ((8 / 10) * (360 / 34)) ∧
      (i : ℚ) * (360 / 34) < pointerAngle (spinWheel s r).wheelRotation ∧
      pointerAngle (spinWheel s r).wheelRotation < ((i : ℚ) + 1) * (360 / 34) ∧
      |pointerAngle (spinWheel s r).wheelRotation - ((i : ℚ) + 1 / 2) * (360 / 34)|
        ≤ (4 / 10) * (360 / 34) := by
  obtain ⟨a, ha, hactive⟩ := hact
  have hmema : a ∈ s.wheelSegments.filter fun seg => seg.active :=
    List.mem_filter.mpr ⟨ha, hactive⟩
  have hne : (s.wheelSegments.filter fun seg => seg.active).length ≠ 0 := by
    intro h0
    rw [List.length_eq_zero] at h0
    rw [h0] at hmema
    simp at hmema
  have hdraw := drawSegment_pick s r.pick hidle hne
  have hin := List.get_mem (s.wheelSegments.filter fun seg => seg.active)
    (randomIndex r.pick _ (Nat.pos_of_ne_zero hne)).val
    (randomIndex r.pick _ (Nat.pos_of_ne_zero hne)).isLt
  have hin2 := List.mem_filter.mp hin
  obtain ⟨i, hi, hget, hfi⟩ := findIndex_of_mem s.wheelSegments _ hin2.1 hnodup
  rw [hfi] at hdraw
  have hi34 : i < 34 := by omega
  refine ⟨i, _, ?_, hin2.2, hi34, hget, hdraw, ?_, pointer_of_segmentIndex s r _ i hdraw hi34⟩
  · exact List.getElem?_eq_getElem (randomIndex r.pick _ (Nat.pos_of_ne_zero hne)).isLt
  · rw [spinWheel_passed s r _ _ hdraw]

theorem onceSpunWheel_state :
    onceSpunWheel.wheelSegments =
        (buildSegments 34).map (fun seg =>
          if seg.number = 1 then { seg with active := false } else seg) ∧
      onceSpunWheel.isSpinning = false ∧ onceSpunWheel.timers = [] ∧
      onceSpunWheel.selectedNumberFromWheel = some 1 := by
  unfold onceSpunWheel spinToCompletion
  rw [spinWheel_passed freshWheel zeroSpin 1 _ drawSegment_fresh_zero]
  exact ⟨rfl, rfl, rfl, rfl⟩

theorem onceSpunWheel_active :
    (onceSpunWheel.wheelSegments.filter fun x => x.active) = (buildSegments 34).drop 1 := by
  rw [onceSpunWheel_state.1]
  decide

theorem sampleSpin_index :
    ⌊sampleSpin.pick.val * ((((buildSegments 34).drop 1).length : Nat) : ℚ)⌋.toNat = 16 := by
  have hl : ((buildSegments 34).drop 1).length = 33 := by decide
  rw [hl]
  have hfl : ⌊sampleSpin.pick.val * ((33 : Nat) : ℚ)⌋ = 16 := by
    rw [Int.floor_eq_iff]
    simp only [sampleSpin]
    norm_num
  rw [hfl]
  rfl

/-- C7 on the wheel whose segment 1 was drawn before (so the positions in the
active list and on the wheel differ, and the rotation is not 0), with pick 1/2,
turns 1/2, jitter 3/4: the pick selects the 17th of the 33 active segments, number
18, which is the segment at index 17 of the wheel, and the pointer lands inside
the span of segment 17. -/
theorem C7_pointer_in_wedge_witness :
    (onceSpunWheel.isSpinning = false ∧
      (∃ seg ∈ onceSpunWheel.wheelSegments, seg.active = true) ∧
      (onceSpunWheel.wheelSegments.map fun seg => seg.number).Nodup ∧
      onceSpunWheel.wheelSegments.length ≤ 34) ∧
    onceSpunWheel.wheelSegments[17]? = some (makeSegment 17) ∧
    (makeSegment 17).number = 18 ∧
    drawSegment onceSpunWheel sampleSpin.pick = some (18, ((17 : Nat) : Int)) ∧
    (spinWheel onceSpunWheel sampleSpin).timers = [18] ∧
    pointerAngle (spinWheel onceSpunWheel sampleSpin).wheelRotation =
      (((17 : Nat) : ℚ) + 1 / 2) * (360 / 34)
        - (sampleSpin.jitter.val - 1 / 2) * ((8 / 10) * (360 / 34)) ∧
    ((17 : Nat) : ℚ) * (360 / 34)
      < pointerAngle (spinWheel onceSpunWheel sampleSpin).wheelRotation ∧
    pointerAngle (spinWheel onceSpunWheel sampleSpin).wheelRotation
      < (((17 : Nat) : ℚ) + 1) * (360 / 34) ∧
    |pointerAngle (spinWheel onceSpunWheel sampleSpin).wheelRotation
        - (((17 : Nat) : ℚ) + 1 / 2) * (360 / 34)| ≤ (4 / 10) * (360 / 34) := by
  have h1 : onceSpunWheel.isSpinning = false := onceSpunWheel_state.2.1
  have h2 : ∃ seg ∈ onceSpunWheel.wheelSegments, seg.active = true := by
    rw [onceSpunWheel_state.1]
    decide
  have h3 : (onceSpunWheel.wheelSegments.map fun seg => seg.number).Nodup := by
    rw [onceSpunWheel_state.1]
    decide
  have h4 : onceSpunWheel.wheelSegments.length ≤ 34 := by
    rw [onceSpunWheel_state.1]
    decide
  obtain ⟨i, seg, hpick, _, hi, hget, hdraw, htimers, hbounds⟩ :=
    C7_pointer_in_wedge onceSpunWheel sampleSpin h1 h2 h3 h4
  rw [onceSpunWheel_active, sampleSpin_index] at hpick
  have hseg : seg = makeSegment 17 := by
    have h16 : ((buildSegments 34).drop 1)[16]? = some (makeSegment 17) := by decide
    rw [h16] at hpick
    exact (Option.some.inj hpick).symm
  subst hseg
  have hi17 : i = 17 := by
    have hall : ∀ j, j < 34 →
        ((buildSegments 34).map (fun seg =>
          if seg.number = 1 then { seg with active := false } else seg))[j]?
          = some (makeSegment 17) → j = 17 := by decide
    rw [onceSpunWheel_state.1] at hget
    exact hall i hi hget
  subst hi17
  rw [onceSpunWheel_state.2.2.1] at htimers
  exact ⟨⟨h1, h2, h3, h4⟩, hget, rfl, hdraw, htimers, hbounds⟩

/-- Every wheel reached from the fresh wheel has 34 segments with distinct
numbers. -/
theorem wheelRun_shape (evs : List WheelEvent) :
    ((wheelRun freshWheel evs).wheelSegments.map fun seg => seg.number).Nodup ∧
      (wheelRun freshWheel evs).wheelSegments.length ≤ 34 := by
  have h := (spinInv_run evs freshWheel spinInv_fresh).1
  constructor
  · rw [h]
    exact List.nodup_range' 1 34
  · have hl := congrArg List.length h
    simp only [List.length_map, List.length_range'] at hl
    omega

end AppComponent
